import Mathlib

/-!
Verification development for the incremental rebuild engine of the mako
bundler: the update planner (crates/mako/src/update.rs), the dev watch loop
(crates/mako/src/dev.rs), the per-module statement graph and the re-export
resolver of the tree-shake pass
(crates/mako/src/plugins/farm_tree_shake/statement_graph.rs and
crates/mako/src/plugins/farm_tree_shake/module/import_exports.rs).

Rust collections are embedded as lists (hash-map and hash-set iteration is
linearized in insertion order); machine integers carry no arithmetic here and
are embedded as Nat; fallible calls return Except or Option.  External
collaborators (the resolver, the module builder, the filesystem) are passed
in as explicit oracle functions.
-/

namespace Mako

/-! ## Identifier utilities

Identifiers are strings as produced by the syntax tree printer: a bare
symbol, optionally followed by a # context tag (an opaque numeric scope
marker). -/

/-- Modelled from the spec: strip_context (crates/mako/src/plugins/
farm_tree_shake/shake.rs is not under src/) removes any trailing context
annotation, yielding the bare symbol before the # tag. -/
def stripContext (s : String) : String :=
  String.mk (s.toList.takeWhile (fun c => c ≠ '#'))

/-- Modelled from the spec: whether an identifier string carries a syntactic
context tag. -/
def hasContextTag (s : String) : Bool :=
  s.toList.any (fun c => c == '#')

/-- Modelled from the spec: is_ident_sym_equal compares the textual symbol
only. -/
def isIdentSymEqual (a b : String) : Bool :=
  stripContext a == stripContext b

/-- Modelled from the spec: is_ident_equal also compares context when both
identifiers carry one. -/
def isIdentEqual (a b : String) : Bool :=
  if hasContextTag a && hasContextTag b then a == b
  else isIdentSymEqual a b

/-! ## Statement model (statement_graph.rs) -/

/-- ImportSpecifierInfo from statement_graph.rs. -/
inductive ImportSpecifierInfo where
  | Namespace (localName : String)
  | Named (localName : String) (imported : Option String)
  | Default (localName : String)
  deriving DecidableEq, Repr

/-- ImportInfo from statement_graph.rs. -/
structure ImportInfo where
  source : String
  specifiers : List ImportSpecifierInfo
  stmtId : Nat
  deriving DecidableEq, Repr

/-- ImportInfo::find_define_specifier from statement_graph.rs: the first
specifier binding the identifier; a Namespace specifier matches any
request. -/
def ImportInfo.findDefineSpecifier (info : ImportInfo) (ident : String) :
    Option ImportSpecifierInfo :=
  go info.specifiers
where
  go : List ImportSpecifierInfo → Option ImportSpecifierInfo
    | [] => none
    | spec :: rest =>
      match spec with
      | .Namespace _ => some spec
      | .Named localName _ => if isIdentEqual ident localName then some spec else go rest
      | .Default localName => if ident == localName then some spec else go rest

/-- ExportSpecifierInfo from statement_graph.rs. -/
inductive ExportSpecifierInfo where
  | All (idents : List String)
  | Named (localName : String) (exported : Option String)
  | Default (ident : Option String)
  | Namespace (name : String)
  | Ambiguous (idents : List String)
  deriving DecidableEq, Repr

/-- ExportInfo from statement_graph.rs. -/
structure ExportInfo where
  source : Option String
  specifiers : List ExportSpecifierInfo
  stmtId : Nat
  deriving DecidableEq, Repr

/-- ExportInfo::find_define_specifier from statement_graph.rs: the first
specifier whose exported name matches; an Ambiguous specifier whose list
does not contain the identifier short-circuits the search with none.
import_exports.rs calls this search find_export_specifier; that method is
not under src/ and is modelled from the spec by this same search. -/
def ExportInfo.findDefineSpecifier (info : ExportInfo) (ident : String) :
    Option ExportSpecifierInfo :=
  go info.specifiers
where
  go : List ExportSpecifierInfo → Option ExportSpecifierInfo
    | [] => none
    | spec :: rest =>
      match spec with
      | .Default _ => if ident == "default" then some spec else go rest
      | .Named localName exported =>
        if isIdentEqual ident (exported.getD localName) then some spec else go rest
      | .Namespace ns => if isIdentEqual ident ns then some spec else go rest
      | .All exportedIdents =>
        if exportedIdents.any (fun i => isIdentEqual ident i) then some spec
        else go rest
      | .Ambiguous idents =>
        if idents.any (fun i => isIdentEqual ident i) then some spec else none

/-- ExportInfoMatch from statement_graph.rs. -/
inductive ExportInfoMatch where
  | Matched
  | Unmatched
  | Ambiguous
  deriving DecidableEq, Repr

/-- ExportInfo::matches_ident from statement_graph.rs: three-valued match;
a concrete match wins over an ambiguous one. -/
def ExportInfo.matchesIdent (info : ExportInfo) (ident : String) :
    ExportInfoMatch :=
  go info.specifiers ExportInfoMatch.Unmatched
where
  go : List ExportSpecifierInfo → ExportInfoMatch → ExportInfoMatch
    | [], res => res
    | spec :: rest, res =>
      match spec with
      | .Default _ => if ident == "default" then .Matched else go rest res
      | .Named localName exported =>
        if isIdentEqual ident (exported.getD localName) then .Matched else go rest res
      | .Namespace ns => if isIdentEqual ident ns then .Matched else go rest res
      | .All exportedIdents =>
        if exportedIdents.any (fun i => isIdentEqual ident i) then .Matched
        else go rest res
      | .Ambiguous idents =>
        if idents.any (fun i => isIdentEqual ident i) then .Matched
        else go rest ExportInfoMatch.Ambiguous

/-! ## Re-export resolver (import_exports.rs) -/

/-- Modelled from the spec: ReExportType2 (shake/skip_module.rs is not under
src/): the way a value flows out of the module. -/
inductive ReExportType2 where
  | Named (name : String)
  | Default
  | Namespace
  deriving DecidableEq, Repr

/-- Modelled from the spec: ReExportSource2 (shake/skip_module.rs is not
under src/): source = none means the identifier is locally originated. -/
structure ReExportSource2 where
  reExportType : ReExportType2
  source : Option String
  deriving DecidableEq, Repr

/-- Statement as seen by the re-export resolver: the import and export
records of one top-level item, in body order. -/
structure ResolverStmt where
  importInfo : Option ImportInfo
  exportInfo : Option ExportInfo
  deriving DecidableEq, Repr

/-- Outcome of the first pass of find_export_source over the statements:
an early return, a remembered (re_export_type, local_ident) pair set just
before the break, or falling through with local_ident still unset. -/
inductive ExportScan where
  | ret (r : Option ReExportSource2)
  | remembered (ty : ReExportType2) (localIdent : String)
  | fallthrough
  deriving DecidableEq, Repr

/-- First pass of TreeShakeModule::find_export_source (import_exports.rs,
the loop over statements with export_info). -/
def scanExports (ident : String) : List ResolverStmt → ExportScan
  | [] => .fallthrough
  | stmt :: rest =>
    match stmt.exportInfo with
    | none => scanExports ident rest
    | some exportInfo =>
      match exportInfo.findDefineSpecifier ident with
      | none => scanExports ident rest
      | some exportSpecifier =>
        match exportInfo.source with
        | some source =>
          match exportSpecifier with
          | .All allExports =>
            if allExports.any (fun i => isIdentSymEqual i ident) then
              .ret (some ⟨.Named (stripContext ident), some source⟩)
            else scanExports ident rest
          | .Ambiguous _ => scanExports ident rest
          | .Named localName exported =>
            match exported with
            | some exportedName =>
              if isIdentSymEqual exportedName ident then
                .ret (some ⟨if stripContext localName == "default" then .Default
                            else .Named (stripContext localName), some source⟩)
              else scanExports ident rest
            | none =>
              if isIdentSymEqual ident localName then
                .ret (some ⟨if stripContext localName == "default" then .Default
                            else .Named (stripContext localName), some source⟩)
              else scanExports ident rest
          | .Default _ => .ret none
          | .Namespace name =>
            if stripContext name == ident then
              .ret (some ⟨.Namespace, some source⟩)
            else .ret none
        | none =>
          match exportSpecifier with
          | .All _ => scanExports ident rest
          | .Named localName exported =>
            match exported with
            | some exportedName =>
              if isIdentSymEqual exportedName ident then
                .remembered (.Named (stripContext exportedName)) localName
              else scanExports ident rest
            | none =>
              if isIdentSymEqual ident localName then
                .remembered (.Named (stripContext localName)) localName
              else scanExports ident rest
          | .Default exportDefaultIdent =>
            if ident == "default" then
              match exportDefaultIdent with
              | some defaultIdent => .remembered .Default defaultIdent
              | none => .ret (some ⟨.Default, none⟩)
            else scanExports ident rest
          | .Namespace _ => .ret none
          | .Ambiguous _ => .ret none

/-- Second pass of TreeShakeModule::find_export_source (import_exports.rs,
the loop over statements with import_info given the remembered
local_ident). -/
def scanImports (localIdent : String) : List ResolverStmt → Option ReExportSource2
  | [] => none
  | stmt :: rest =>
    match stmt.importInfo with
    | none => scanImports localIdent rest
    | some importInfo =>
      match importInfo.findDefineSpecifier localIdent with
      | none => scanImports localIdent rest
      | some importSpecifier =>
        match importSpecifier with
        | .Namespace _ => some ⟨.Namespace, some importInfo.source⟩
        | .Named importedLocal imported =>
          if isIdentSymEqual localIdent importedLocal then
            some ⟨.Named (stripContext (imported.getD localIdent)),
                  some importInfo.source⟩
          else scanImports localIdent rest
        | .Default name =>
          if localIdent == name then some ⟨.Default, some importInfo.source⟩
          else scanImports localIdent rest

/-- TreeShakeModule::find_export_source from import_exports.rs, over the
statements of the module in body order. -/
def findExportSource (stmts : List ResolverStmt) (ident : String) :
    Option ReExportSource2 :=
  match scanExports ident stmts with
  | .ret r => r
  | .fallthrough => none
  | .remembered ty localIdent =>
    match scanImports localIdent stmts with
    | some r => some r
    | none => some ⟨ty, none⟩

/-- A statement whose export record, if any, is a sourced re-export carrying
a single Ambiguous specifier (the CommonJS interop marker). -/
def ambiguousOnlyExport (s : ResolverStmt) : Prop :=
  s.exportInfo = none ∨
    ∃ src l k, s.exportInfo = some ⟨some src, [ExportSpecifierInfo.Ambiguous l], k⟩

theorem scanExports_ambiguousOnly (ident : String) :
    ∀ stmts : List ResolverStmt, (∀ s ∈ stmts, ambiguousOnlyExport s) →
      scanExports ident stmts = ExportScan.fallthrough := by
  intro stmts
  induction stmts with
  | nil => intro _; rfl
  | cons s rest ih =>
    intro h
    have hs := h s (List.mem_cons_self s rest)
    have hrest : scanExports ident rest = ExportScan.fallthrough :=
      ih (fun t ht => h t (List.mem_cons_of_mem s ht))
    rcases hs with hnone | ⟨src, l, k, hsome⟩
    · simp only [scanExports, hnone, hrest]
    · by_cases hany : (l.any fun i => isIdentEqual ident i) = true
      · simp [scanExports, hsome, ExportInfo.findDefineSpecifier,
          ExportInfo.findDefineSpecifier.go, hany, hrest]
      · simp [scanExports, hsome, ExportInfo.findDefineSpecifier,
          ExportInfo.findDefineSpecifier.go, hany, hrest]

/-- C7: for a module whose only export statements carry sourced Ambiguous
specifiers (a re-export of * from a CommonJS module), find_export_source
returns none for every queried identifier, and the first pass falls through
without remembering a local ident, so the import scan is never entered. -/
theorem C7_ambiguous_export_unresolved
    (stmts : List ResolverStmt) (ident : String)
    (h : ∀ s ∈ stmts, ambiguousOnlyExport s) :
    findExportSource stmts ident = none ∧
      scanExports ident stmts = ExportScan.fallthrough := by
  have hscan := scanExports_ambiguousOnly ident stmts h
  refine ⟨?_, hscan⟩
  unfold findExportSource
  rw [hscan]

theorem C7_ambiguous_export_unresolved_witness :
    findExportSource
        [⟨some ⟨"./other.js", [ImportSpecifierInfo.Named "b" (some "a")], 0⟩, none⟩,
         ⟨none, some ⟨some "./cjs", [ExportSpecifierInfo.Ambiguous ["x"]], 1⟩⟩]
        "whatever" = none ∧
      scanExports "whatever"
        [⟨some ⟨"./other.js", [ImportSpecifierInfo.Named "b" (some "a")], 0⟩, none⟩,
         ⟨none, some ⟨some "./cjs", [ExportSpecifierInfo.Ambiguous ["x"]], 1⟩⟩]
        = ExportScan.fallthrough :=
  C7_ambiguous_export_unresolved _ "whatever"
    (by
      intro s hs
      rcases List.mem_cons.mp hs with h1 | h1
      · subst h1; exact Or.inl rfl
      · rcases List.mem_cons.mp h1 with h2 | h2
        · subst h2; exact Or.inr ⟨"./cjs", ["x"], 1, rfl⟩
        · exact absurd h2 (List.not_mem_nil s))

/-- C8: for the module import { a as b } from "./a.js"; export { b as c };
the query c resolves to a re-export from ./a.js under the original name a:
the export match remembers local ident b and the import scan maps b back
through the import alias to a. -/
theorem C8_import_alias_reexport :
    findExportSource
      [⟨some ⟨"./a.js", [ImportSpecifierInfo.Named "b" (some "a")], 0⟩, none⟩,
       ⟨none, some ⟨none, [ExportSpecifierInfo.Named "b" (some "c")], 1⟩⟩] "c"
      = some ⟨ReExportType2.Named "a", some "./a.js"⟩ := by decide

theorem scanExports_ret_source_none (ident : String) (stmts : List ResolverStmt) :
    ∀ r : ReExportSource2,
      scanExports ident stmts = ExportScan.ret (some r) → r.source = none →
        r.reExportType = ReExportType2.Default := by
  induction stmts using scanExports.induct ident <;>
    intro r h hsrc <;>
    simp_all only [scanExports] <;>
    (try simp_all) <;>
    (try (subst h; simp_all))

theorem scanExports_remembered_not_namespace (ident : String) (stmts : List ResolverStmt) :
    ∀ (ty : ReExportType2) (li : String),
      scanExports ident stmts = ExportScan.remembered ty li →
        ty ≠ ReExportType2.Namespace := by
  induction stmts using scanExports.induct ident <;>
    intro ty li h <;>
    simp_all only [scanExports] <;>
    (try simp_all) <;>
    (try (rcases h with ⟨h1, h2⟩; subst h1; simp_all))

theorem scanImports_source_isSome (li : String) (stmts : List ResolverStmt) :
    ∀ r : ReExportSource2,
      scanImports li stmts = some r → ∃ s, r.source = some s := by
  induction stmts using scanImports.induct li <;>
    intro r h <;>
    simp_all only [scanImports] <;>
    (try simp_all) <;>
    (try (subst h; simp_all))

/-- C10: every ReExportSource2 returned by find_export_source whose source
is none (a Direct Export) has re_export_type Named or Default, never
Namespace; equivalently a Namespace result always carries a source. -/
theorem C10_source_none_never_namespace
    (stmts : List ResolverStmt) (ident : String) (r : ReExportSource2)
    (h : findExportSource stmts ident = some r) (hsrc : r.source = none) :
    r.reExportType ≠ ReExportType2.Namespace := by
  unfold findExportSource at h
  rcases hscan : scanExports ident stmts with r0 | ⟨ty, li⟩ | _ <;>
    simp only [hscan] at h
  · cases r0 with
    | none => cases h
    | some r1 =>
      cases h
      rw [scanExports_ret_source_none ident stmts _ hscan hsrc]
      intro hc; cases hc
  · rcases himp : scanImports li stmts with _ | r1 <;> simp only [himp] at h
    · cases h
      exact scanExports_remembered_not_namespace ident stmts _ li hscan
    · cases h
      rcases scanImports_source_isSome li stmts _ himp with ⟨s, hs⟩
      rw [hs] at hsrc; cases hsrc
  · cases h

theorem C10_source_none_never_namespace_witness :
    (ReExportSource2.mk ReExportType2.Default none).reExportType
      ≠ ReExportType2.Namespace :=
  C10_source_none_never_namespace
    [⟨none, some ⟨none, [ExportSpecifierInfo.Default none], 0⟩⟩] "default"
    ⟨ReExportType2.Default, none⟩ (by decide) rfl

/-! ## Dev watch loop (dev.rs, ProjectWatch::start)

One invocation of the watch callback, as a pure function of the update
outcome and the outcomes of the external collaborators
generate_hot_update_chunks and emit_dev_chunks.  Console printing is I/O and
is not modelled; the u64 hashes are embedded as Nat. -/

/-- Observable outcome of one watch-callback invocation: the retained
last_full_hash afterwards, the hashes broadcast to subscribers, and whether
emit_dev_chunks was invoked. -/
structure WatchStepResult where
  lastFullHash : Nat
  broadcasts : List Nat
  emitAttempted : Bool
  deriving DecidableEq, Repr

/-- Body of the watch callback in ProjectWatch::start (dev.rs): on update
success with changes, generate hot-update chunks; stop when the new full
hash equals the retained one; otherwise store the new hash, then emit dev
chunks, and broadcast only when the emit succeeded and the channel has
subscribers. -/
def watchStep (updateRes : Except String Bool)
    (genHotUpdateChunks : Except String Nat) (emitDevChunksOk : Bool)
    (receiverCount : Nat) (lastFullHash : Nat) : WatchStepResult :=
  match updateRes with
  | .error _ => ⟨lastFullHash, [], false⟩
  | .ok isUpdated =>
    if isUpdated then
      match genHotUpdateChunks with
      | .error _ => ⟨lastFullHash, [], false⟩
      | .ok nextFullHash =>
        if nextFullHash == lastFullHash then ⟨lastFullHash, [], false⟩
        else
          if emitDevChunksOk then
            ⟨nextFullHash, if receiverCount > 0 then [nextFullHash] else [], true⟩
          else ⟨nextFullHash, [], true⟩
    else ⟨lastFullHash, [], false⟩

/-- C4 counterexample: with retained hash 0, a successful update and a new
full hash 1, a failing emit_dev_chunks skips the broadcast but leaves
last_full_hash equal to 1, not 0 — the hash is updated before the emit, so
it is not left unchanged as the claim states; and the next event producing
the same full hash 1 stops at the hash-equality check without attempting
the emit again. -/
theorem C4_counterexample :
    (watchStep (Except.ok true) (Except.ok 1) false 1 0).broadcasts = [] ∧
      (watchStep (Except.ok true) (Except.ok 1) false 1 0).lastFullHash ≠ 0 ∧
      (watchStep (Except.ok true) (Except.ok 1) false 1
        (watchStep (Except.ok true) (Except.ok 1) false 1 0).lastFullHash).emitAttempted
        = false := by
  decide

/-- C4 amended: when emit_dev_chunks fails the broadcast is skipped, but
last_full_hash has already been updated to next_full_hash before the emit
attempt; a subsequent file event producing the same next_full_hash stops at
the hash-equality check and does not retry the emit or broadcast. -/
theorem C4_emit_failure_keeps_new_hash
    (next last : Nat) (recv recv2 : Nat) (emitOk2 : Bool)
    (hne : next ≠ last) :
    watchStep (Except.ok true) (Except.ok next) false recv last
        = ⟨next, [], true⟩ ∧
      watchStep (Except.ok true) (Except.ok next) emitOk2 recv2 next
        = ⟨next, [], false⟩ := by
  constructor
  · simp [watchStep, hne]
  · simp [watchStep]

theorem C4_emit_failure_keeps_new_hash_witness :
    watchStep (Except.ok true) (Except.ok 7) false 3 0 = ⟨7, [], true⟩ ∧
      watchStep (Except.ok true) (Except.ok 7) true 3 7 = ⟨7, [], false⟩ :=
  C4_emit_failure_keeps_new_hash 7 0 3 3 true (by decide)

/-! ## Statement graph construction (statement_graph.rs)

A Statement is one per-syntactic-item analysis record; the analysis of the
syntax tree itself (analyze_imports_and_exports) is an external input, so
StatementGraph::new is embedded over the list of pre-analyzed records, one
per top-level item in body order (Statement::new assigns ids by index).
Hash-set iteration is linearized in list order. -/

/-- Per-statement analysis record, restricted to the fields the graph
construction and the live-slice query read: defined idents, used idents and
the intra-statement defined-to-used map. -/
structure Statement where
  id : Nat
  definedIdents : List String
  usedIdents : List String
  definedIdentsMap : List (String × List String)
  deriving DecidableEq, Repr

/-- Pre-analyzed statement data, before ids are assigned by enumeration. -/
structure StmtData where
  definedIdents : List String
  usedIdents : List String
  definedIdentsMap : List (String × List String)
  deriving DecidableEq, Repr

/-- StatementGraph from statement_graph.rs: statements in body order plus
labeled directed edges (from, to, idents). -/
structure StatementGraph where
  stmts : List Statement
  edges : List (Nat × Nat × List String)
  deriving DecidableEq, Repr

/-- Insertion-ordered set union backing HashSet::extend. -/
def listUnion (a b : List String) : List String :=
  a ++ b.filter (fun x => !a.contains x)

/-- Merge the ident set into the first existing (from, to) edge, when one
exists (StatementGraph::add_edge, merge branch). -/
def addEdgeAux (f t : Nat) (idents : List String) :
    List (Nat × Nat × List String) → Option (List (Nat × Nat × List String))
  | [] => none
  | e :: rest =>
    if e.1 == f && e.2.1 == t then some ((e.1, e.2.1, listUnion e.2.2 idents) :: rest)
    else (addEdgeAux f t idents rest).map (fun es => e :: es)

/-- StatementGraph::add_edge from statement_graph.rs: extend the existing
edge with the idents when a (from, to) edge is present, otherwise append a
new edge. -/
def StatementGraph.addEdge (g : StatementGraph) (f t : Nat)
    (idents : List String) : StatementGraph :=
  match addEdgeAux f t idents g.edges with
  | some es => { g with edges := es }
  | none => { g with edges := g.edges ++ [(f, t, idents)] }

/-- StatementGraph::new from statement_graph.rs: one statement per item
(ids are the body indices), then for every ordered pair (stmt, def_stmt)
whose used and defined idents intersect, an edge labeled with the
intersection. -/
def StatementGraph.new (data : List StmtData) : StatementGraph :=
  let stmts := data.enum.map (fun p =>
    Statement.mk p.1 p.2.definedIdents p.2.usedIdents p.2.definedIdentsMap)
  let base : StatementGraph := ⟨stmts, []⟩
  let edgesToAdd := stmts.bind (fun stmt =>
    stmts.filterMap (fun defStmt =>
      let depsIdents := defStmt.definedIdents.filter
        (fun di => stmt.usedIdents.contains di)
      if depsIdents.isEmpty then none else some (stmt.id, defStmt.id, depsIdents)))
  edgesToAdd.foldl (fun g e => g.addEdge e.1 e.2.1 e.2.2) base

/-- Whether the graph has an edge from f to t. -/
def StatementGraph.hasEdge (g : StatementGraph) (f t : Nat) : Bool :=
  g.edges.any (fun e => e.1 == f && e.2.1 == t)

/-- C6 counterexample: a one-statement module whose statement both defines
and uses the ident a; StatementGraph::new produces an edge from statement 0
to itself, so the claim that the graph never contains self-loops fails. -/
theorem C6_counterexample :
    (StatementGraph.new [⟨["a"], ["a"], [("a", [])]⟩]).hasEdge 0 0 = true := by
  decide

theorem addEdgeAux_pairs (f t : Nat) (idents : List String) :
    ∀ (es es2 : List (Nat × Nat × List String)),
      addEdgeAux f t idents es = some es2 →
        es2.map (fun e => (e.1, e.2.1)) = es.map (fun e => (e.1, e.2.1)) := by
  intro es
  induction es with
  | nil => intro es2 h; cases h
  | cons e rest ih =>
    intro es2 h
    simp only [addEdgeAux] at h
    split at h
    · cases h; simp
    · rcases haux : addEdgeAux f t idents rest with _ | es3
      · rw [haux] at h; cases h
      · rw [haux] at h
        cases h
        simp [ih es3 haux]

theorem addEdgeAux_some_mem (f t : Nat) (idents : List String) :
    ∀ (es es2 : List (Nat × Nat × List String)),
      addEdgeAux f t idents es = some es2 →
        (f, t) ∈ es.map (fun e => (e.1, e.2.1)) := by
  intro es
  induction es with
  | nil => intro es2 h; cases h
  | cons e rest ih =>
    intro es2 h
    simp only [addEdgeAux] at h
    split at h
    · rename_i hcond
      simp only [Bool.and_eq_true, beq_iff_eq] at hcond
      simp [hcond.1.symm, hcond.2.symm]
    · rcases haux2 : addEdgeAux f t idents rest with _ | es3
      · rw [haux2] at h; cases h
      · simp only [List.map_cons, List.mem_cons]
        exact Or.inr (ih es3 haux2)

theorem hasEdge_addEdge (g : StatementGraph) (f t f2 t2 : Nat)
    (idents : List String) :
    (g.addEdge f t idents).hasEdge f2 t2
      = (g.hasEdge f2 t2 || (f == f2 && t == t2)) := by
  unfold StatementGraph.addEdge
  rcases haux : addEdgeAux f t idents g.edges with _ | es2
  · simp only [StatementGraph.hasEdge, List.any_append, List.any_cons,
      List.any_nil, Bool.or_false]
  · have hpairs := addEdgeAux_pairs f t idents g.edges es2 haux
    have hmem : (f, t) ∈ g.edges.map (fun e => (e.1, e.2.1)) :=
      addEdgeAux_some_mem f t idents g.edges es2 haux
    simp only [StatementGraph.hasEdge]
    have hany : ∀ es : List (Nat × Nat × List String),
        (es.any (fun e => e.1 == f2 && e.2.1 == t2))
          = ((es.map (fun e => (e.1, e.2.1))).any (fun p => p.1 == f2 && p.2 == t2)) := by
      intro es; induction es with
      | nil => rfl
      | cons e rest ih2 => simp [List.any_cons, ih2]
    rw [hany, hany, hpairs]
    rcases hft : (f == f2 && t == t2) with _ | _
    · simp
    · simp only [Bool.and_eq_true, beq_iff_eq] at hft
      have : ((f2, t2) ∈ g.edges.map (fun e => (e.1, e.2.1))) := by
        rw [← hft.1, ← hft.2]; exact hmem
      have htrue : (g.edges.map (fun e => (e.1, e.2.1))).any
          (fun p => p.1 == f2 && p.2 == t2) = true := by
        rw [List.any_eq_true]
        exact ⟨(f2, t2), this, by simp⟩
      rw [htrue]
      simp

theorem hasEdge_foldl_addEdge (es : List (Nat × Nat × List String)) :
    ∀ (g : StatementGraph) (a b : Nat),
      (es.foldl (fun g e => g.addEdge e.1 e.2.1 e.2.2) g).hasEdge a b
        = (g.hasEdge a b || es.any (fun e => e.1 == a && e.2.1 == b)) := by
  induction es with
  | nil => intro g a b; simp
  | cons e rest ih =>
    intro g a b
    simp only [List.foldl_cons, List.any_cons]
    rw [ih, hasEdge_addEdge]
    rw [Bool.or_assoc]

/-- C6 amended: StatementGraph::new produces an edge from statement i to
itself exactly when the statement's own used and defined ident sets
intersect; in particular when every statement's used and defined idents are
disjoint the graph has no self-loops. -/
theorem C6_self_loop_iff_self_intersection
    (data : List StmtData) (i : Nat) (hi : i < data.length) :
    (StatementGraph.new data).hasEdge i i
      = (data.get ⟨i, hi⟩).definedIdents.any
          (fun di => (data.get ⟨i, hi⟩).usedIdents.contains di) := by
  unfold StatementGraph.new
  rw [hasEdge_foldl_addEdge]
  simp only [StatementGraph.hasEdge, List.any_nil, Bool.false_or]
  rcases hcond : (data.get ⟨i, hi⟩).definedIdents.any
      (fun di => (data.get ⟨i, hi⟩).usedIdents.contains di) with _ | _
  · rw [List.any_eq_false]
    intro e he
    simp only [List.mem_bind, List.mem_filterMap] at he
    rcases he with ⟨stmt, hstmt, defStmt, hdef, hsome⟩
    split at hsome
    · cases hsome
    · rename_i hne
      cases hsome
      simp only [Bool.and_eq_true, beq_iff_eq]
      intro hab
      rcases List.mem_iff_get.mp hstmt with ⟨j, hj⟩
      rcases List.mem_iff_get.mp hdef with ⟨k, hk⟩
      have hjid : stmt.id = j.1 := by
        have := hj
        simp only [List.get_map, List.get_enum] at this
        rw [← this]
      have hkid : defStmt.id = k.1 := by
        have := hk
        simp only [List.get_map, List.get_enum] at this
        rw [← this]
      rw [hjid, hkid] at hab
      have hji : (j : Nat) = i := hab.1
      have hki : (k : Nat) = i := hab.2
      have hstmt_eq : stmt = Statement.mk i ((data.get ⟨i, hi⟩).definedIdents)
          ((data.get ⟨i, hi⟩).usedIdents) ((data.get ⟨i, hi⟩).definedIdentsMap) := by
        rw [← hj]
        simp only [List.get_map, List.get_enum]
        congr 1 <;> simp [hji]
      have hdef_eq : defStmt = Statement.mk i ((data.get ⟨i, hi⟩).definedIdents)
          ((data.get ⟨i, hi⟩).usedIdents) ((data.get ⟨i, hi⟩).definedIdentsMap) := by
        rw [← hk]
        simp only [List.get_map, List.get_enum]
        congr 1 <;> simp [hki]
      apply hne
      rw [List.isEmpty_iff_eq_nil, List.filter_eq_nil]
      intro x hx
      rw [hdef_eq] at hx
      simp only at hx
      rw [List.any_eq_false] at hcond
      have := hcond x hx
      rw [hstmt_eq]
      simpa using this
  · rw [List.any_eq_true] at hcond
    rcases hcond with ⟨x, hxdef, hxused⟩
    rw [List.any_eq_true]
    refine ⟨(i, i, (data.get ⟨i, hi⟩).definedIdents.filter
      (fun di => (data.get ⟨i, hi⟩).usedIdents.contains di)), ?_, by simp⟩
    simp only [List.mem_bind, List.mem_filterMap]
    refine ⟨Statement.mk i ((data.get ⟨i, hi⟩).definedIdents)
      ((data.get ⟨i, hi⟩).usedIdents) ((data.get ⟨i, hi⟩).definedIdentsMap), ?_,
      Statement.mk i ((data.get ⟨i, hi⟩).definedIdents)
      ((data.get ⟨i, hi⟩).usedIdents) ((data.get ⟨i, hi⟩).definedIdentsMap), ?_, ?_⟩
    · rw [List.mem_iff_get]
      refine ⟨⟨i, by simpa using hi⟩, ?_⟩
      simp [List.get_map, List.get_enum]
    · rw [List.mem_iff_get]
      refine ⟨⟨i, by simpa using hi⟩, ?_⟩
      simp [List.get_map, List.get_enum]
    · rw [if_neg]
      · intro hemp
        dsimp only at hemp
        rw [List.isEmpty_iff] at hemp
        have hmemf : x ∈ List.filter
            (fun di => (data.get ⟨i, hi⟩).usedIdents.contains di)
            (data.get ⟨i, hi⟩).definedIdents :=
          List.mem_filter.mpr ⟨hxdef, hxused⟩
        rw [hemp] at hmemf
        cases hmemf

theorem C6_self_loop_iff_self_intersection_witness :
    (StatementGraph.new [⟨["b"], ["c"], []⟩]).hasEdge 0 0
      = (([⟨["b"], ["c"], []⟩] : List StmtData).get
          ⟨0, by decide⟩).definedIdents.any
          (fun di => (([⟨["b"], ["c"], []⟩] : List StmtData).get
            ⟨0, by decide⟩).usedIdents.contains di) :=
  C6_self_loop_iff_self_intersection [⟨["b"], ["c"], []⟩] 0 (by decide)

/-! ## Update planner (update.rs)

The module graph, the resolver and the module builder live outside src/;
the graph operations are modelled from the spec (section 4.5) and the
builder and resolver are oracle functions whose spec contracts appear as
hypotheses where a claim needs them.  Paths are strings; the HashSets of
update.rs are embedded as insertion-ordered duplicate-free lists. -/

/-- Modelled from the spec: Dependency (module.rs is not under src/): an
edge label carrying the source specifier, the import kind and an ordering
index. -/
structure Dependency where
  source : String
  resolveType : Nat
  order : Nat
  deriving DecidableEq, Repr

/-- Modelled from the spec: ModuleId (module.rs is not under src/): opaque
string identity, convertible to and from a path. -/
structure ModuleId where
  id : String
  deriving DecidableEq, Repr

/-- ModuleId::from_path / ModuleId::new: the path string itself. -/
def ModuleId.fromPath (p : String) : ModuleId := ⟨p⟩

/-- ModuleId::to_path. -/
def ModuleId.toPath (m : ModuleId) : String := m.id

/-- Modelled from the spec: ModuleInfo (module.rs is not under src/),
restricted to the field the update planner reads: the map from unresolved
source specifier to Dependency. -/
structure ModuleInfo where
  missingDeps : List (String × Dependency)
  deriving DecidableEq, Repr

/-- Modelled from the spec: Module (module.rs is not under src/); info is
absent for external modules. -/
structure Module where
  id : ModuleId
  isEntry : Bool
  info : Option ModuleInfo
  deriving DecidableEq, Repr

/-- Modelled from the spec: the module graph (module_graph.rs is not under
src/): modules keyed by id plus labeled edges kept in insertion order. -/
structure ModuleGraph where
  modules : List Module
  edges : List (ModuleId × ModuleId × Dependency)
  deriving DecidableEq, Repr

/-- Modelled from the spec: ModuleGraph::has_module. -/
def ModuleGraph.hasModule (g : ModuleGraph) (id : ModuleId) : Bool :=
  g.modules.any (fun m => m.id == id)

/-- Modelled from the spec: ModuleGraph::get_module. -/
def ModuleGraph.getModule (g : ModuleGraph) (id : ModuleId) : Option Module :=
  g.modules.find? (fun m => m.id == id)

/-- Replace the module with the same id in place, appending when absent. -/
def replaceOrAppend : List Module → Module → List Module
  | [], m => [m]
  | m0 :: rest, m => if m0.id == m.id then m :: rest else m0 :: replaceOrAppend rest m

/-- Modelled from the spec: ModuleGraph::add_module — insert, replacing any
module with the same id (edges are kept separately and so preserved). -/
def ModuleGraph.addModule (g : ModuleGraph) (m : Module) : ModuleGraph :=
  { g with modules := replaceOrAppend g.modules m }

/-- Modelled from the spec: ModuleGraph::replace_module — replace contents
while preserving incident edges. -/
def ModuleGraph.replaceModule (g : ModuleGraph) (m : Module) : ModuleGraph :=
  { g with modules := replaceOrAppend g.modules m }

/-- Modelled from the spec: ModuleGraph::add_dependency — append an edge
record; multiple distinct deps between the same pair may coexist. -/
def ModuleGraph.addDependency (g : ModuleGraph) (u v : ModuleId)
    (d : Dependency) : ModuleGraph :=
  { g with edges := g.edges ++ [(u, v, d)] }

/-- Remove the first list element satisfying the predicate. -/
def removeFirst (p : α → Bool) : List α → List α
  | [] => []
  | x :: rest => if p x then rest else x :: removeFirst p rest

/-- Modelled from the spec: ModuleGraph::remove_dependency — remove the
matching edge by value equality on the dependency. -/
def ModuleGraph.removeDependency (g : ModuleGraph) (u v : ModuleId)
    (d : Dependency) : ModuleGraph :=
  { g with edges :=
      removeFirst (fun e => e.1 == u && e.2.1 == v && e.2.2 == d) g.edges }

/-- Modelled from the spec: ModuleGraph::remove_module_and_deps — remove
the module and every incident edge atomically. -/
def ModuleGraph.removeModuleAndDeps (g : ModuleGraph) (id : ModuleId) :
    ModuleGraph :=
  ⟨g.modules.filter (fun m => !(m.id == id)),
   g.edges.filter (fun e => !(e.1 == id) && !(e.2.1 == id))⟩

/-- Modelled from the spec: ModuleGraph::dependant_module_ids — the set of
nodes with an edge to the module. -/
def ModuleGraph.dependantModuleIds (g : ModuleGraph) (id : ModuleId) :
    List ModuleId :=
  ((g.edges.filter (fun e => e.2.1 == id)).map (fun e => e.1)).dedup

/-- Modelled from the spec: ModuleGraph::get_dependencies — outgoing edges
in insertion order. -/
def ModuleGraph.getDependencies (g : ModuleGraph) (id : ModuleId) :
    List (ModuleId × Dependency) :=
  g.edges.filterMap (fun e => if e.1 == id then some (e.2.1, e.2.2) else none)

/-- Apply a function to the module with the given id (the get_module_mut
then mutate pattern). -/
def ModuleGraph.updateModule (g : ModuleGraph) (id : ModuleId)
    (f : Module → Module) : ModuleGraph :=
  { g with modules := g.modules.map (fun m => if m.id == id then f m else m) }

/-- Part of a path before the first question mark
(id.split(&#x27;?&#x27;).next().unwrap() in update.rs). -/
def queryLessPart (s : String) : String :=
  String.mk (s.toList.takeWhile (fun c => c ≠ '?'))

/-- Whether the pattern occurs as a substring (id.contains("?modules")). -/
def containsSubstrChars (pat : List Char) : List Char → Bool
  | [] => pat.isEmpty
  | c :: rest => pat.isPrefixOf (c :: rest) || containsSubstrChars pat rest

def containsSubstr (s pat : String) : Bool :=
  containsSubstrChars pat.toList s.toList

/-- Insertion-ordered HashSet insert for module ids. -/
def idInsert (l : List ModuleId) (x : ModuleId) : List ModuleId :=
  if l.contains x then l else l ++ [x]

/-- HashSet::extend for module ids. -/
def idUnion (a b : List ModuleId) : List ModuleId := b.foldl idInsert a

/-- Insertion-ordered HashSet insert for (ModuleId, Dependency) pairs. -/
def pairInsert (l : List (ModuleId × Dependency)) (x : ModuleId × Dependency) :
    List (ModuleId × Dependency) :=
  if l.contains x then l else l ++ [x]

/-- UpdateType from update.rs. -/
inductive UpdateType where
  | Add
  | Remove
  | Modify
  deriving DecidableEq, Repr

/-- UpdateResult from update.rs; the three HashSets as insertion-ordered
duplicate-free lists. -/
structure UpdateResult where
  added : List ModuleId
  removed : List ModuleId
  modified : List ModuleId
  deriving DecidableEq, Repr

/-- UpdateResult::is_updated from update.rs. -/
def UpdateResult.isUpdated (r : UpdateResult) : Bool :=
  !r.modified.isEmpty || !r.added.isEmpty || !r.removed.isEmpty

/-- A resolved resource for one dependency (external resolver output);
get_resolved_path is the stored path. -/
structure Resource where
  resolvedPath : String
  deriving DecidableEq, Repr

/-- External collaborators of the update planner, per spec section 6:
the filesystem snapshot, the css-path test, the resolver (phase B only
observes success), build_module, create_module (update.rs unwraps its
result, so the oracle is total), the per-path recursive add build used by
build_by_add, and the configured entry paths. -/
structure UpdateOracles where
  fsExists : String → Bool
  isCssPath : String → Bool
  resolveOk : String → Dependency → Bool
  buildModule : String → Bool → Except String (Module × List (Resource × Dependency))
  createModule : Resource → ModuleId → Module
  buildOne : String → Except String ModuleId
  entries : List String

/-- Phase A classification of one event path (update.rs lines 74-92). -/
def classifyPath (o : UpdateOracles) (g : ModuleGraph) (p : String) :
    UpdateType :=
  if o.fsExists p then
    if g.hasModule ⟨p⟩ || g.hasModule ⟨p ++ "?asmodule"⟩ then UpdateType.Modify
    else UpdateType.Add
  else UpdateType.Remove

/-- State threaded through the missing-deps repair phase: the module graph,
the modules_with_missing_deps vector and the modified queue. -/
structure RepairState where
  graph : ModuleGraph
  missingDepsSet : List String
  modified : List String
  deriving DecidableEq, Repr

/-- Inner loop of phase B (update.rs lines 124-140) over the cloned
missing_deps of one module: a successful re-resolution pushes the module
path onto the modified queue, erases the entry from the live map, and when
the live map becomes empty runs
modules_with_missing_deps.retain(|x| x == module_id) — exactly as written
at update.rs line 137. -/
def repairDeps (o : UpdateOracles) (moduleId : String) :
    List (String × Dependency) → RepairState → RepairState
  | [], st => st
  | (_src, dep) :: rest, st =>
    if o.resolveOk moduleId dep then
      let graph2 := st.graph.updateModule ⟨moduleId⟩ (fun m =>
        { m with info := m.info.map (fun i =>
            ⟨i.missingDeps.filter (fun kv => !(kv.1 == dep.source))⟩) })
      let nowEmpty :=
        match graph2.getModule ⟨moduleId⟩ with
        | some m =>
          match m.info with
          | some i => i.missingDeps.isEmpty
          | none => false
        | none => false
      let set2 :=
        if nowEmpty then st.missingDepsSet.filter (fun x => x == moduleId)
        else st.missingDepsSet
      repairDeps o moduleId rest ⟨graph2, set2, st.modified ++ [moduleId]⟩
    else repairDeps o moduleId rest st

/-- Phase B for one module of the cloned set (update.rs lines 120-141);
none models the unwrap panics on a missing module or absent info. -/
def repairModule (o : UpdateOracles) (st : RepairState) (moduleId : String) :
    Option RepairState :=
  match st.graph.getModule ⟨moduleId⟩ with
  | none => none
  | some m =>
    match m.info with
    | none => none
    | some info => some (repairDeps o moduleId info.missingDeps st)

def repairGo (o : UpdateOracles) : List String → RepairState → Option RepairState
  | [], st => some st
  | mid :: rest, st =>
    match repairModule o st mid with
    | none => none
    | some st2 => repairGo o rest st2

/-- Phase B — missing-deps repair (update.rs lines 115-143): iterate the
clone of modules_with_missing_deps, re-resolving each recorded missing
dependency. -/
def repairPhase (o : UpdateOracles) (g : ModuleGraph)
    (missingDepsSet : List String) : Option RepairState :=
  repairGo o missingDepsSet ⟨g, missingDepsSet, []⟩

/-- One step of the phase C filter. -/
def filterStep (o : UpdateOracles) (g : ModuleGraph)
    (acc : List (String × UpdateType)) (pu : String × UpdateType) :
    List (String × UpdateType) :=
  let acc2 := if g.hasModule ⟨pu.1⟩ then acc ++ [pu] else acc
  if o.isCssPath pu.1 then
    let withAs := pu.1 ++ "?asmodule"
    if g.hasModule ⟨withAs⟩ then acc2 ++ [(withAs, pu.2)] else acc2
  else acc2

/-- Phase C — filter (update.rs lines 146-166): keep a path when it is a
known module; for a css path whose ?asmodule twin is a known module, push
an extra entry for the twin with the same update type. -/
def filterPaths (o : UpdateOracles) (g : ModuleGraph)
    (paths : List (String × UpdateType)) : List (String × UpdateType) :=
  paths.foldl (filterStep o g) []

/-- One step of the grouping of filtered paths. -/
def groupStep (acc : List String × List String × List String)
    (pu : String × UpdateType) : List String × List String × List String :=
  match pu.2 with
  | UpdateType.Add => (acc.1 ++ [pu.1], acc.2.1, acc.2.2)
  | UpdateType.Remove => (acc.1, acc.2.1 ++ [pu.1], acc.2.2)
  | UpdateType.Modify => (acc.1, acc.2.1, acc.2.2 ++ [pu.1])

/-- Grouping of the filtered paths into the added, removed and modified
queues (update.rs lines 169-181). -/
def groupPaths (paths : List (String × UpdateType)) :
    List String × List String × List String :=
  paths.foldl groupStep ([], [], [])

/-- One step of build_by_remove. -/
def removeStep (acc : ModuleGraph × List ModuleId × List ModuleId)
    (path : String) : ModuleGraph × List ModuleId × List ModuleId :=
  let moduleId : ModuleId := ModuleId.fromPath path
  let dependants := acc.1.dependantModuleIds moduleId
  let g2 := acc.1.removeModuleAndDeps moduleId
  (g2, idInsert acc.2.1 moduleId, idUnion acc.2.2 dependants)

/-- Compiler::build_by_remove (update.rs lines 412-424): for each removed
path capture the dependants, remove the module with its incident edges, and
accumulate (removed ids, affected dependant ids). -/
def buildByRemove (g : ModuleGraph) (removed : List String) :
    ModuleGraph × List ModuleId × List ModuleId :=
  removed.foldl removeStep (g, [], [])

/-- The dependency diff (update.rs lines 427-457).  Note the filters
compare only the ModuleId component against the origin and target id sets;
the Dependency component plays no part in membership. -/
structure Diff where
  added : List (ModuleId × Dependency)
  removed : List (ModuleId × Dependency)
  deriving DecidableEq, Repr

def diff (origin target : List (ModuleId × Dependency)) : Diff :=
  let originModuleIds := origin.map (fun md => md.1)
  let targetModuleIds := target.map (fun md => md.1)
  let added := (target.filter
    (fun md => !originModuleIds.contains md.1)).foldl pairInsert []
  let removed := (origin.filter
    (fun md => !targetModuleIds.contains md.1)).foldl pairInsert []
  ⟨added, removed⟩

/-- Per-entry result of the parallel modify build (update.rs lines
259-324): the rebuilt module, the dependency diff and the created child
modules keyed by id. -/
structure ModifyItem where
  module : Module
  addedDeps : List (ModuleId × Dependency)
  removedDeps : List (ModuleId × Dependency)
  addModules : List (ModuleId × Module)
  deriving DecidableEq, Repr

/-- Failure modes of the planner: a collected build error, or an unwrap
panic. -/
inductive UpdateErr where
  | panic
  | buildErr (msg : String)
  deriving DecidableEq, Repr

/-- One step of the target-dependency accumulation (update.rs lines
309-318): resolve each dependency resource to a module id, create the child
module (update.rs unwraps create_module, so the oracle is total) and record
the (id, dep) pair. -/
def targetStep (o : UpdateOracles)
    (acc : List (ModuleId × Dependency) × List (ModuleId × Module))
    (rd : Resource × Dependency) :
    List (ModuleId × Dependency) × List (ModuleId × Module) :=
  let moduleId : ModuleId := ⟨rd.1.resolvedPath⟩
  let m2 := o.createModule rd.1 moduleId
  (acc.1 ++ [(moduleId, rd.2)], acc.2 ++ [(moduleId, m2)])

/-- One entry of the modify build (the par_iter closure, update.rs lines
261-323): rebuild the module, update modules_with_missing_deps, read the
current dependencies from the pre-application graph and diff them against
the rebuilt dependency list.  The parallel side effects on
modules_with_missing_deps are linearized in list order. -/
def buildOneModify (o : UpdateOracles) (g0 : ModuleGraph) (entry : String)
    (mset : List String) :
    Except UpdateErr (ModifyItem × List String) :=
  let isEntry := o.entries.contains entry
  match o.buildModule entry isEntry with
  | .error e => .error (.buildErr e)
  | .ok (module, dependencies) =>
    match module.info with
    | none => .error .panic
    | some info =>
      let mset2 :=
        if info.missingDeps.isEmpty then
          mset.filter (fun id => !(id == module.id.id))
        else mset ++ [module.id.id]
      let currentDependencies := g0.getDependencies module.id
      let targetAndModules := dependencies.foldl (targetStep o) ([], [])
      let d := diff currentDependencies targetAndModules.1
      .ok (⟨module, d.added, d.removed, targetAndModules.2⟩, mset2)

def modifyItemsGo (o : UpdateOracles) (g0 : ModuleGraph) :
    List String → List String → Except UpdateErr (List ModifyItem × List String)
  | [], mset => .ok ([], mset)
  | entry :: rest, mset =>
    match buildOneModify o g0 entry mset with
    | .error e => .error e
    | .ok (item, mset2) =>
      match modifyItemsGo o g0 rest mset2 with
      | .error e => .error e
      | .ok (items, mset3) => .ok (item :: items, mset3)

/-- HashMap::remove on the created-modules map. -/
def lookupRemove (am : List (ModuleId × Module)) (id : ModuleId) :
    Option (Module × List (ModuleId × Module)) :=
  match am with
  | [] => none
  | kv :: rest =>
    if kv.1 == id then some (kv.2, rest)
    else (lookupRemove rest id).map (fun p => (p.1, kv :: p.2))

/-- Edge application for one rebuilt module (update.rs lines 331-354, the
add-dependency loop): take each added (id, dep), pull the created module
out of the map (none models the unwrap panic), queue its path for the add
phase when it has no info, and insert module and edge. -/
def applyAdds (parent : ModuleId) :
    List (ModuleId × Dependency) → List (ModuleId × Module) → ModuleGraph →
      List String → Option (ModuleGraph × List String)
  | [], _, g, added => some (g, added)
  | (addId, dep) :: more, am, g, added =>
    match lookupRemove am addId with
    | none => none
    | some (addModule, am2) =>
      let added2 := if addModule.info.isNone then added ++ [addId.toPath] else added
      let g2 := (g.addModule addModule).addDependency parent addId dep
      applyAdds parent more am2 g2 added2

/-- Sequential application of the modify results under the write lock
(update.rs lines 330-354). -/
def applyItems :
    List ModifyItem → ModuleGraph → List String → List ModuleId →
      Option (ModuleGraph × List String × List ModuleId)
  | [], g, added, mids => some (g, added, mids)
  | item :: rest, g, added, mids =>
    let g1 := item.removedDeps.foldl
      (fun g rd => g.removeDependency item.module.id rd.1 rd.2) g
    match applyAdds item.module.id item.addedDeps item.addModules g1 added with
    | none => none
    | some (g2, added2) =>
      applyItems rest (g2.replaceModule item.module) added2
        (idInsert mids item.module.id)

/-- Compiler::build_by_modify (update.rs lines 238-357): push the ?modules
twin of each modified ?asmodule path, build every entry against the
pre-application graph, then apply diffs sequentially.  Returns the new
graph, the new modules_with_missing_deps, the modified module ids and the
queued add paths. -/
def buildByModify (o : UpdateOracles) (g0 : ModuleGraph) (mset : List String)
    (modified0 : List String) :
    Except UpdateErr (ModuleGraph × List String × List ModuleId × List String) :=
  let modified := g0.modules.foldl (fun acc m =>
    if containsSubstr m.id.id "?modules" then
      let originId := queryLessPart m.id.id
      if acc.contains (originId ++ "?asmodule") then acc ++ [m.id.id] else acc
    else acc) modified0
  match modifyItemsGo o g0 modified mset with
  | .error e => .error e
  | .ok (items, mset2) =>
    match applyItems items g0 [] [] with
    | none => .error .panic
    | some (g2, added, mids) => .ok (g2, mset2, mids, added)

/-- Error-string cleanup of build_by_add (update.rs lines 389-398):
unescape and trim the surrounding quotes. -/
def unescapeErr (e : String) : String :=
  let e1 := ((e.replace "\\n" "\n").replace "\\u\x7b1b\x7d" "\x1b").replace
    "\\\\" "\\"
  if e1.startsWith "\"" && e1.endsWith "\"" then
    String.mk ((e1.toList.drop 1).dropLast)
  else e1

/-- Compiler::build_by_add (update.rs lines 359-410): build each queued
path on the worker pool (linearized in list order), collect the module ids,
and join the cleaned errors into one aggregate error. -/
def buildByAdd (o : UpdateOracles) (added : List String) :
    Except String (List ModuleId) :=
  let results := added.map (fun p => o.buildOne p)
  let moduleIds := results.foldl (fun acc r =>
    match r with
    | .ok id => idInsert acc id
    | .error _ => acc) []
  let errors := results.foldl (fun acc r =>
    match r with
    | .ok _ => acc
    | .error e => acc ++ [unescapeErr e]) []
  if errors.isEmpty then .ok moduleIds
  else .error (String.intercalate ", " errors)

/-- Compiler::update (update.rs lines 72-224): classify the event paths,
repair missing deps when an add is present, filter, group, remove, modify,
add, and assemble the UpdateResult.  Returns the result together with the
final graph and modules_with_missing_deps. -/
def update (o : UpdateOracles) (g0 : ModuleGraph) (missingSet0 : List String)
    (paths : List String) :
    Except UpdateErr (UpdateResult × ModuleGraph × List String) :=
  let classified := paths.map (fun p => (p, classifyPath o g0 p))
  let hasAdded := classified.any (fun pu =>
    match pu.2 with
    | UpdateType.Add => true
    | _ => false)
  let repairRes :=
    if hasAdded then repairPhase o g0 missingSet0
    else some ⟨g0, missingSet0, []⟩
  match repairRes with
  | none => .error .panic
  | some st =>
    let filtered := filterPaths o st.graph classified
    let groups := groupPaths filtered
    let addQueue0 := groups.1
    let removedPaths := groups.2.1
    let modifyPaths := groups.2.2
    let afterRemove := buildByRemove st.graph removedPaths
    let modified2 := (st.modified ++ modifyPaths)
      ++ afterRemove.2.2.map ModuleId.toPath
    match buildByModify o afterRemove.1 st.missingDepsSet modified2 with
    | .error e => .error e
    | .ok (g3, mset2, modifiedIds, addPaths) =>
      let addQueue := addQueue0 ++ addPaths
      match buildByAdd o addQueue with
      | .error e => .error (.buildErr e)
      | .ok addedModuleIds =>
        let addedSet := idUnion
          (idUnion [] (addQueue.map ModuleId.fromPath)) addedModuleIds
        .ok (⟨addedSet, afterRemove.2.1, modifiedIds⟩, g3, mset2)

/-- Oracle with inert collaborators: nothing exists on disk, nothing is a
css path, nothing resolves, every build fails. -/
def oracleNone : UpdateOracles :=
  ⟨fun _ => false, fun _ => false, fun _ _ => false,
   fun _ _ => Except.error "", fun _ id => ⟨id, false, none⟩,
   fun _ => Except.error "", []⟩

def depX : Dependency := ⟨"./x", 0, 0⟩

def depY : Dependency := ⟨"./y", 0, 0⟩

def modB : Module := ⟨⟨"b.js"⟩, false, some ⟨[("./y", depY)]⟩⟩

/-- Two modules with one missing dep each. -/
def gC1 : ModuleGraph :=
  ⟨[⟨⟨"a.js"⟩, false, some ⟨[("./x", depX)]⟩⟩, modB], []⟩

/-- Oracle under which only the dep ./x of a.js resolves. -/
def oC1 : UpdateOracles :=
  { oracleNone with
    resolveOk := fun mid dep => mid == "a.js" && dep.source == "./x" }

/-- C1: evaluation of the missing-deps repair phase at the failing input:
modules_with_missing_deps = [a.js, b.js] and only the single missing dep of
a.js now resolves.  The phase promotes a.js to the modified queue and
erases the entry (both as the claim says), but the final set is [a.js] —
retain(|x| x == module_id) at update.rs line 137 keeps the repaired module
and drops b.js, while the claim (and the debug message directly above the
line, and the correct retain(|id| id != ...) at line 291) require dropping
a.js and keeping b.js. -/
theorem C1_repair_retain_keeps_repaired_module :
    repairPhase oC1 gC1 ["a.js", "b.js"]
      = some ⟨⟨[⟨⟨"a.js"⟩, false, some ⟨[]⟩⟩, modB], []⟩,
              ["a.js"], ["a.js"]⟩ := by
  decide

def depOld : Dependency := ⟨"./m", 0, 0⟩

def depNew : Dependency := ⟨"./m", 0, 1⟩

/-- C2 counterexample: origin and target both mention module m.js but with
different Dependency labels; the claim says the differing pairs appear in
added and removed, yet diff compares only the ModuleId component, so both
sets are empty. -/
theorem C2_counterexample :
    diff [(⟨"m.js"⟩, depOld)] [(⟨"m.js"⟩, depNew)] = ⟨[], []⟩ ∧
      ¬ ((⟨"m.js"⟩, depNew)
          ∈ (diff [(⟨"m.js"⟩, depOld)] [(⟨"m.js"⟩, depNew)]).added) ∧
      ¬ ((⟨"m.js"⟩, depOld)
          ∈ (diff [(⟨"m.js"⟩, depOld)] [(⟨"m.js"⟩, depNew)]).removed) := by
  decide

theorem pairInsert_mem (l : List (ModuleId × Dependency))
    (x y : ModuleId × Dependency) :
    x ∈ pairInsert l y ↔ x ∈ l ∨ x = y := by
  unfold pairInsert
  split
  · rename_i hc
    constructor
    · exact fun h => Or.inl h
    · intro h
      rcases h with h | h
      · exact h
      · subst h
        simpa using hc
  · simp

theorem mem_foldl_pairInsert (l : List (ModuleId × Dependency)) :
    ∀ (acc : List (ModuleId × Dependency)) (x : ModuleId × Dependency),
      x ∈ l.foldl pairInsert acc ↔ x ∈ acc ∨ x ∈ l := by
  induction l with
  | nil => intro acc x; simp
  | cons y rest ih =>
    intro acc x
    rw [List.foldl_cons, ih, pairInsert_mem]
    simp only [List.mem_cons]
    tauto

/-- C2 amended: the dependency diff is a set difference on the ModuleId
component only: a (ModuleId, Dependency) pair of target is added exactly
when its ModuleId appears in no origin pair, and a pair of origin is
removed exactly when its ModuleId appears in no target pair; a pair whose
ModuleId occurs on both sides is in neither set, even when the Dependency
labels differ. -/
theorem C2_diff_by_module_id (origin target : List (ModuleId × Dependency))
    (p : ModuleId × Dependency) :
    (p ∈ (diff origin target).added
        ↔ p ∈ target ∧ p.1 ∉ origin.map Prod.fst) ∧
      (p ∈ (diff origin target).removed
        ↔ p ∈ origin ∧ p.1 ∉ target.map Prod.fst) := by
  unfold diff
  constructor
  · rw [mem_foldl_pairInsert]
    simp [List.mem_filter]
  · rw [mem_foldl_pairInsert]
    simp [List.mem_filter]

/-- Oracle for the C3 scenario: the single event path exists on disk and
nothing else does; all other collaborators are inert. -/
def oC3 : UpdateOracles :=
  { oracleNone with fsExists := fun p => p == "new.js" }

/-- C3 counterexample: one event path that exists on disk and is not in the
(empty) module graph is classified Add, the update succeeds, and the
returned UpdateResult.added is empty — it does not contain the ModuleId of
the originally-listed added path, contradicting the claim. -/
theorem C3_counterexample :
    classifyPath oC3 ⟨[], []⟩ "new.js" = UpdateType.Add ∧
      update oC3 ⟨[], []⟩ [] ["new.js"]
        = Except.ok (⟨[], [], []⟩, (⟨[], []⟩ : ModuleGraph), ([] : List String)) ∧
      ¬ (ModuleId.fromPath "new.js"
          ∈ (⟨[], [], []⟩ : UpdateResult).added) :=
  ⟨rfl, rfl, by decide⟩

theorem filterPaths_mem (o : UpdateOracles) (gf : ModuleGraph)
    (l : List (String × UpdateType)) :
    ∀ (acc : List (String × UpdateType)) (x : String × UpdateType),
      x ∈ l.foldl (filterStep o gf) acc →
      x ∈ acc ∨ ∃ pu ∈ l,
        (x = pu ∧ gf.hasModule ⟨pu.1⟩ = true) ∨
        (x = (pu.1 ++ "?asmodule", pu.2)
          ∧ gf.hasModule ⟨pu.1 ++ "?asmodule"⟩ = true) := by
  induction l with
  | nil => intro acc x h; exact Or.inl h
  | cons pu rest ih =>
    intro acc x h
    rw [List.foldl_cons] at h
    rcases ih _ x h with hacc | ⟨pv, hpv, hcase⟩
    · unfold filterStep at hacc
      dsimp only at hacc
      split at hacc
      · rename_i hcss
        split at hacc
        · rename_i hAs
          rw [List.mem_append] at hacc
          rcases hacc with hacc | hx
          · split at hacc
            · rename_i hdirect
              rw [List.mem_append] at hacc
              rcases hacc with hacc | hx
              · exact Or.inl hacc
              · simp only [List.mem_singleton] at hx
                exact Or.inr ⟨pu, List.mem_cons_self pu rest, Or.inl ⟨hx, hdirect⟩⟩
            · exact Or.inl hacc
          · simp only [List.mem_singleton] at hx
            exact Or.inr ⟨pu, List.mem_cons_self pu rest, Or.inr ⟨hx, hAs⟩⟩
        · split at hacc
          · rename_i hdirect
            rw [List.mem_append] at hacc
            rcases hacc with hacc | hx
            · exact Or.inl hacc
            · simp only [List.mem_singleton] at hx
              exact Or.inr ⟨pu, List.mem_cons_self pu rest, Or.inl ⟨hx, hdirect⟩⟩
          · exact Or.inl hacc
      · split at hacc
        · rename_i hdirect
          rw [List.mem_append] at hacc
          rcases hacc with hacc | hx
          · exact Or.inl hacc
          · simp only [List.mem_singleton] at hx
            exact Or.inr ⟨pu, List.mem_cons_self pu rest, Or.inl ⟨hx, hdirect⟩⟩
        · exact Or.inl hacc
    · exact Or.inr ⟨pv, List.mem_cons_of_mem pu hpv, hcase⟩

/-- C3 amended: an event path classified Add never survives the filter
phase — over any graph that agrees with the classification graph on module
membership (phase B only rewrites module infos), the filtered list contains
no (path, Add) entry at all; consequently UpdateResult.added receives only
the ModuleIds of add-queue paths discovered through the dependency diffs of
modified modules, plus the recursively built module ids. -/
theorem C3_add_paths_never_survive_filter (o : UpdateOracles)
    (g gf : ModuleGraph) (paths : List String) (p : String)
    (hagree : ∀ id, gf.hasModule id = g.hasModule id) :
    (p, UpdateType.Add)
      ∉ filterPaths o gf (paths.map (fun q => (q, classifyPath o g q))) := by
  intro hmem
  unfold filterPaths at hmem
  rcases filterPaths_mem o gf _ [] _ hmem with hacc | ⟨pu, hpu, hcase⟩
  · cases hacc
  · rw [List.mem_map] at hpu
    rcases hpu with ⟨q, _, hq⟩
    subst hq
    rcases hcase with ⟨hx, hdirect⟩ | ⟨hx, hAs⟩
    · have hty : UpdateType.Add = classifyPath o g q := congrArg Prod.snd hx
      have hq1 : p = q := congrArg Prod.fst hx
      subst hq1
      simp only at hdirect
      rw [hagree] at hdirect
      unfold classifyPath at hty
      split at hty
      · split at hty
        · cases hty
        · rename_i hnot
          simp [hdirect] at hnot
      · cases hty
    · have hty : UpdateType.Add = classifyPath o g q := congrArg Prod.snd hx
      simp only at hAs
      rw [hagree] at hAs
      unfold classifyPath at hty
      split at hty
      · split at hty
        · cases hty
        · rename_i hnot
          simp [hAs] at hnot
      · cases hty

theorem C3_add_paths_never_survive_filter_witness :
    ("new.js", UpdateType.Add)
      ∉ filterPaths oC3 ⟨[], []⟩
          (["new.js"].map (fun q => (q, classifyPath oC3 ⟨[], []⟩ q))) :=
  C3_add_paths_never_survive_filter oC3 ⟨[], []⟩ ⟨[], []⟩ ["new.js"] "new.js"
    (fun _ => rfl)

/-! ### Disjointness of the UpdateResult sets (C5)

The discriminating observation: every id in removed names a path whose
query-less part does not exist on disk, while every id in modified or added
names one that does.  The spec contracts of the external collaborators
(build success needs the file, resolution success means loadable) enter as
hypotheses. -/

theorem idInsert_mem (l : List ModuleId) (x y : ModuleId) :
    x ∈ idInsert l y ↔ x ∈ l ∨ x = y := by
  unfold idInsert
  split
  · rename_i hc
    constructor
    · exact fun h => Or.inl h
    · intro h
      rcases h with h | h
      · exact h
      · subst h
        simpa using hc
  · simp

theorem idUnion_mem (b : List ModuleId) :
    ∀ (a : List ModuleId) (x : ModuleId),
      x ∈ idUnion a b ↔ x ∈ a ∨ x ∈ b := by
  induction b with
  | nil => intro a x; simp [idUnion]
  | cons y rest ih =>
    intro a x
    unfold idUnion at ih ⊢
    rw [List.foldl_cons, ih, idInsert_mem]
    simp only [List.mem_cons]
    tauto

theorem groupPaths_foldl (l : List (String × UpdateType)) :
    ∀ acc : List String × List String × List String,
      (∀ p, p ∈ (l.foldl groupStep acc).1 →
        p ∈ acc.1 ∨ (p, UpdateType.Add) ∈ l) ∧
      (∀ p, p ∈ (l.foldl groupStep acc).2.1 →
        p ∈ acc.2.1 ∨ (p, UpdateType.Remove) ∈ l) ∧
      (∀ p, p ∈ (l.foldl groupStep acc).2.2 →
        p ∈ acc.2.2 ∨ (p, UpdateType.Modify) ∈ l) := by
  induction l with
  | nil => intro acc; refine ⟨fun p h => Or.inl h, fun p h => Or.inl h,
      fun p h => Or.inl h⟩
  | cons pu rest ih =>
    intro acc
    rw [List.foldl_cons]
    rcases ih (groupStep acc pu) with ⟨ih1, ih2, ih3⟩
    have hstep : (groupStep acc pu).1 = acc.1 ∨
        ((groupStep acc pu).1 = acc.1 ++ [pu.1] ∧ pu.2 = UpdateType.Add) := by
      unfold groupStep
      rcases pu with ⟨p0, ty⟩
      cases ty <;> simp
    have hstep2 : (groupStep acc pu).2.1 = acc.2.1 ∨
        ((groupStep acc pu).2.1 = acc.2.1 ++ [pu.1]
          ∧ pu.2 = UpdateType.Remove) := by
      unfold groupStep
      rcases pu with ⟨p0, ty⟩
      cases ty <;> simp
    have hstep3 : (groupStep acc pu).2.2 = acc.2.2 ∨
        ((groupStep acc pu).2.2 = acc.2.2 ++ [pu.1]
          ∧ pu.2 = UpdateType.Modify) := by
      unfold groupStep
      rcases pu with ⟨p0, ty⟩
      cases ty <;> simp
    refine ⟨fun p h => ?_, fun p h => ?_, fun p h => ?_⟩
    · rcases ih1 p h with h1 | h1
      · rcases hstep with h2 | ⟨h2, hty⟩
        · rw [h2] at h1; exact Or.inl h1
        · rw [h2, List.mem_append] at h1
          rcases h1 with h1 | h1
          · exact Or.inl h1
          · simp only [List.mem_singleton] at h1
            subst h1
            have : pu = (pu.1, UpdateType.Add) := by
              rcases pu with ⟨p0, ty⟩; rw [← hty]
            rw [this] at *
            exact Or.inr (List.mem_cons_self _ _)
      · exact Or.inr (List.mem_cons_of_mem pu h1)
    · rcases ih2 p h with h1 | h1
      · rcases hstep2 with h2 | ⟨h2, hty⟩
        · rw [h2] at h1; exact Or.inl h1
        · rw [h2, List.mem_append] at h1
          rcases h1 with h1 | h1
          · exact Or.inl h1
          · simp only [List.mem_singleton] at h1
            subst h1
            have : pu = (pu.1, UpdateType.Remove) := by
              rcases pu with ⟨p0, ty⟩; rw [← hty]
            rw [this] at *
            exact Or.inr (List.mem_cons_self _ _)
      · exact Or.inr (List.mem_cons_of_mem pu h1)
    · rcases ih3 p h with h1 | h1
      · rcases hstep3 with h2 | ⟨h2, hty⟩
        · rw [h2] at h1; exact Or.inl h1
        · rw [h2, List.mem_append] at h1
          rcases h1 with h1 | h1
          · exact Or.inl h1
          · simp only [List.mem_singleton] at h1
            subst h1
            have : pu = (pu.1, UpdateType.Modify) := by
              rcases pu with ⟨p0, ty⟩; rw [← hty]
            rw [this] at *
            exact Or.inr (List.mem_cons_self _ _)
      · exact Or.inr (List.mem_cons_of_mem pu h1)

theorem buildByRemove_removed_mem (removed : List String) :
    ∀ (acc : ModuleGraph × List ModuleId × List ModuleId) (x : ModuleId),
      x ∈ (removed.foldl removeStep acc).2.1 →
        x ∈ acc.2.1 ∨ ∃ p ∈ removed, x = ModuleId.fromPath p := by
  induction removed with
  | nil => intro acc x h; exact Or.inl h
  | cons path rest ih =>
    intro acc x h
    rw [List.foldl_cons] at h
    rcases ih _ x h with h1 | ⟨p, hp, hx⟩
    · unfold removeStep at h1
      dsimp only at h1
      rw [idInsert_mem] at h1
      rcases h1 with h1 | h1
      · exact Or.inl h1
      · exact Or.inr ⟨path, List.mem_cons_self _ _, h1⟩
    · exact Or.inr ⟨p, List.mem_cons_of_mem path hp, hx⟩

theorem targetStep_fold_mem (o : UpdateOracles)
    (deps : List (Resource × Dependency)) :
    ∀ (acc : List (ModuleId × Dependency) × List (ModuleId × Module))
      (pair : ModuleId × Dependency),
      pair ∈ (deps.foldl (targetStep o) acc).1 →
        pair ∈ acc.1 ∨ ∃ rd ∈ deps,
          pair = (ModuleId.mk rd.1.resolvedPath, rd.2) := by
  induction deps with
  | nil => intro acc pair h; exact Or.inl h
  | cons rd rest ih =>
    intro acc pair h
    rw [List.foldl_cons] at h
    rcases ih _ pair h with h1 | ⟨rd2, hrd2, hx⟩
    · unfold targetStep at h1
      dsimp only at h1
      rw [List.mem_append] at h1
      rcases h1 with h1 | h1
      · exact Or.inl h1
      · simp only [List.mem_singleton] at h1
        exact Or.inr ⟨rd, List.mem_cons_self _ _, h1⟩
    · exact Or.inr ⟨rd2, List.mem_cons_of_mem rd hrd2, hx⟩

theorem diff_added_mem_target (origin target : List (ModuleId × Dependency))
    (p : ModuleId × Dependency) (h : p ∈ (diff origin target).added) :
    p ∈ target := by
  unfold diff at h
  rw [mem_foldl_pairInsert] at h
  rcases h with h | h
  · cases h
  · exact (List.mem_filter.mp h).1

theorem buildOneModify_spec (o : UpdateOracles) (g0 : ModuleGraph)
    (entry : String) (mset mset2 : List String) (item : ModifyItem)
    (h : buildOneModify o g0 entry mset = Except.ok (item, mset2)) :
    ∃ deps, o.buildModule entry (o.entries.contains entry)
        = Except.ok (item.module, deps) ∧
      ∀ pair ∈ item.addedDeps, ∃ rd ∈ deps,
        pair = (ModuleId.mk rd.1.resolvedPath, rd.2) := by
  simp only [buildOneModify] at h
  split at h
  · cases h
  · rename_i module dependencies hb
    split at h
    · cases h
    · rename_i info hinfo
      refine ⟨dependencies, ?_, ?_⟩
      · have : item.module = module := by
          cases h; rfl
        rw [this]; exact hb
      · intro pair hpair
        have hadds : item.addedDeps = (diff (g0.getDependencies module.id)
            (dependencies.foldl (targetStep o) ([], [])).1).added := by
          cases h; rfl
        rw [hadds] at hpair
        have := diff_added_mem_target _ _ pair hpair
        rcases targetStep_fold_mem o dependencies ([], []) pair this with
          h1 | h1
        · cases h1
        · exact h1

theorem modifyItemsGo_spec (o : UpdateOracles) (g0 : ModuleGraph) :
    ∀ (entries : List String) (mset mset2 : List String)
      (items : List ModifyItem),
      modifyItemsGo o g0 entries mset = Except.ok (items, mset2) →
        ∀ item ∈ items, ∃ p deps,
          o.buildModule p (o.entries.contains p)
              = Except.ok (item.module, deps) ∧
            ∀ pair ∈ item.addedDeps, ∃ rd ∈ deps,
              pair = (ModuleId.mk rd.1.resolvedPath, rd.2) := by
  intro entries
  induction entries with
  | nil =>
    intro mset mset2 items h item hitem
    cases h
    cases hitem
  | cons entry rest ih =>
    intro mset mset2 items h item hitem
    unfold modifyItemsGo at h
    split at h
    · cases h
    · rename_i item0 msetA hone
      split at h
      · cases h
      · rename_i items0 msetB hrest
        cases h
        rcases List.mem_cons.mp hitem with h1 | h1
        · subst h1
          rcases buildOneModify_spec o g0 entry mset msetA item hone with
            ⟨deps, hb, hpairs⟩
          exact ⟨entry, deps, hb, hpairs⟩
        · exact ih _ _ _ hrest item h1

theorem applyAdds_added_mem (parent : ModuleId) :
    ∀ (addedDeps : List (ModuleId × Dependency))
      (am : List (ModuleId × Module)) (g : ModuleGraph)
      (added0 : List String) (g2 : ModuleGraph) (added2 : List String),
      applyAdds parent addedDeps am g added0 = some (g2, added2) →
        ∀ q ∈ added2, q ∈ added0 ∨ ∃ pair ∈ addedDeps, q = pair.1.toPath := by
  intro addedDeps
  induction addedDeps with
  | nil =>
    intro am g added0 g2 added2 h q hq
    cases h
    exact Or.inl hq
  | cons pair rest ih =>
    intro am g added0 g2 added2 h q hq
    simp only [applyAdds] at h
    split at h
    · cases h
    · rename_i addModule am2 hlook
      rcases ih _ _ _ _ _ h q hq with h1 | ⟨pair2, hpair2, hx⟩
      · by_cases hinfo : addModule.info.isNone = true
        · rw [if_pos hinfo] at h1
          rw [List.mem_append] at h1
          rcases h1 with h1 | h1
          · exact Or.inl h1
          · simp only [List.mem_singleton] at h1
            exact Or.inr ⟨pair, List.mem_cons_self _ _, h1⟩
        · rw [if_neg hinfo] at h1
          exact Or.inl h1
      · exact Or.inr ⟨pair2, List.mem_cons_of_mem pair hpair2, hx⟩

theorem applyItems_spec :
    ∀ (items : List ModifyItem) (g : ModuleGraph) (added0 : List String)
      (mids0 : List ModuleId) (g2 : ModuleGraph) (added2 : List String)
      (mids2 : List ModuleId),
      applyItems items g added0 mids0 = some (g2, added2, mids2) →
        (∀ x ∈ mids2, x ∈ mids0 ∨ ∃ item ∈ items, x = item.module.id) ∧
        (∀ q ∈ added2, q ∈ added0 ∨ ∃ item ∈ items,
          ∃ pair ∈ item.addedDeps, q = pair.1.toPath) := by
  intro items
  induction items with
  | nil =>
    intro g added0 mids0 g2 added2 mids2 h
    cases h
    exact ⟨fun x hx => Or.inl hx, fun q hq => Or.inl hq⟩
  | cons item rest ih =>
    intro g added0 mids0 g2 added2 mids2 h
    simp only [applyItems] at h
    split at h
    · cases h
    · rename_i gA addedA happ
      rcases ih _ _ _ _ _ _ h with ⟨ih1, ih2⟩
      constructor
      · intro x hx
        rcases ih1 x hx with h1 | ⟨item2, hitem2, hx2⟩
        · rw [idInsert_mem] at h1
          rcases h1 with h1 | h1
          · exact Or.inl h1
          · exact Or.inr ⟨item, List.mem_cons_self _ _, h1⟩
        · exact Or.inr ⟨item2, List.mem_cons_of_mem item hitem2, hx2⟩
      · intro q hq
        rcases ih2 q hq with h1 | ⟨item2, hitem2, hx2⟩
        · rcases applyAdds_added_mem item.module.id item.addedDeps
            item.addModules _ added0 gA addedA happ q h1 with h2 | ⟨pair, hp, hx⟩
          · exact Or.inl h2
          · exact Or.inr ⟨item, List.mem_cons_self _ _, pair, hp, hx⟩
        · exact Or.inr ⟨item2, List.mem_cons_of_mem item hitem2, hx2⟩

theorem buildByModify_spec (o : UpdateOracles) (g0 : ModuleGraph)
    (mset : List String) (modified0 : List String) (g2 : ModuleGraph)
    (mset2 : List String) (mids : List ModuleId) (addPaths : List String)
    (h : buildByModify o g0 mset modified0
      = Except.ok (g2, mset2, mids, addPaths)) :
    (∀ x ∈ mids, ∃ p m deps, o.buildModule p (o.entries.contains p)
        = Except.ok (m, deps) ∧ m.id = x) ∧
    (∀ q ∈ addPaths, ∃ p m deps rd,
      o.buildModule p (o.entries.contains p) = Except.ok (m, deps)
        ∧ rd ∈ deps ∧ q = rd.1.resolvedPath) := by
  simp only [buildByModify] at h
  split at h
  · cases h
  · rename_i items msetB hitems
    split at h
    · cases h
    · rename_i gA addedA midsA happly
      cases h
      rcases applyItems_spec items g0 [] [] _ _ _ happly with
        ⟨hmids, hadded⟩
      constructor
      · intro x hx
        rcases hmids x hx with h1 | ⟨item, hitem, hx2⟩
        · cases h1
        · rcases modifyItemsGo_spec o g0 _ _ _ _ hitems item hitem with
            ⟨p, deps, hb, _⟩
          exact ⟨p, item.module, deps, hb, hx2.symm⟩
      · intro q hq
        rcases hadded q hq with h1 | ⟨item, hitem, pair, hpair, hx⟩
        · cases h1
        · rcases modifyItemsGo_spec o g0 _ _ _ _ hitems item hitem with
            ⟨p, deps, hb, hpairs⟩
          rcases hpairs pair hpair with ⟨rd, hrd, hpe⟩
          refine ⟨p, item.module, deps, rd, hb, hrd, ?_⟩
          rw [hx, hpe]
          rfl

theorem buildByAdd_mem (o : UpdateOracles) (added : List String)
    (ids : List ModuleId) (h : buildByAdd o added = Except.ok ids) :
    ∀ x ∈ ids, ∃ p ∈ added, o.buildOne p = Except.ok x := by
  simp only [buildByAdd] at h
  split at h
  · cases h
    intro x hx
    have hfold : ∀ (results : List (Except String ModuleId))
        (acc : List ModuleId),
        x ∈ results.foldl (fun acc r =>
          match r with
          | Except.ok id => idInsert acc id
          | Except.error _ => acc) acc →
          x ∈ acc ∨ Except.ok x ∈ results := by
      intro results
      induction results with
      | nil => intro acc hh; exact Or.inl hh
      | cons r rest ih =>
        intro acc hh
        rw [List.foldl_cons] at hh
        rcases ih _ hh with h1 | h1
        · cases r with
          | ok id =>
            rw [idInsert_mem] at h1
            rcases h1 with h1 | h1
            · exact Or.inl h1
            · subst h1
              exact Or.inr (List.mem_cons_self _ _)
          | error e => exact Or.inl h1
        · exact Or.inr (List.mem_cons_of_mem r h1)
    rcases hfold _ _ hx with h1 | h1
    · cases h1
    · rw [List.mem_map] at h1
      rcases h1 with ⟨p, hp, hpe⟩
      exact ⟨p, hp, hpe⟩
  · cases h

theorem classify_remove_not_exists (o : UpdateOracles) (g : ModuleGraph)
    (q : String) (h : classifyPath o g q = UpdateType.Remove) :
    o.fsExists q = false := by
  unfold classifyPath at h
  split at h
  · split at h <;> cases h
  · rename_i hfs
    simpa using hfs

theorem classify_add_exists (o : UpdateOracles) (g : ModuleGraph)
    (q : String) (h : classifyPath o g q = UpdateType.Add) :
    o.fsExists q = true := by
  unfold classifyPath at h
  split at h
  · rename_i hfs; exact hfs
  · cases h

theorem takeWhile_append_self (p : Char → Bool) :
    ∀ l1 l2 : List Char, l1.takeWhile p = l1 →
      (l1 ++ l2).takeWhile p = l1 ++ l2.takeWhile p := by
  intro l1
  induction l1 with
  | nil => intro l2 _; rfl
  | cons c rest ih =>
    intro l2 h
    by_cases hc : p c = true
    · rw [List.takeWhile_cons, if_pos hc] at h
      have h2 : rest.takeWhile p = rest := by injection h
      rw [List.cons_append, List.takeWhile_cons, if_pos hc, ih l2 h2]
      rfl
    · rw [List.takeWhile_cons, if_neg hc] at h
      cases h

theorem string_mk_toList (s : String) : String.mk s.toList = s := rfl

theorem queryLessPart_append_asmodule (q : String)
    (hq : queryLessPart q = q) :
    queryLessPart (q ++ "?asmodule") = q := by
  unfold queryLessPart at hq ⊢
  have hdata : (q ++ "?asmodule").toList
      = q.toList ++ ('?' :: "asmodule".toList) := rfl
  rw [hdata]
  have htake : q.toList.takeWhile (fun c => c ≠ '?') = q.toList := by
    have := congrArg String.toList hq
    exact this
  rw [takeWhile_append_self _ _ _ htake]
  have : ('?' :: "asmodule".toList).takeWhile (fun c => c ≠ '?')
      = [] := by decide
  rw [this, List.append_nil]
  rfl

/-- C5: the spec contracts of the external collaborators, as hypotheses:
event paths carry no query suffix; a successful build implies its module's
query-less path exists on disk; a resolved dependency resource names an
existing file; a recursively built module names an existing file.  Under
them, every successful update has added ∩ removed = ∅ and
modified ∩ removed = ∅. -/
theorem C5_added_modified_disjoint_from_removed
    (o : UpdateOracles) (g0 : ModuleGraph) (ms0 : List String)
    (paths : List String) (r : UpdateResult) (gf : ModuleGraph)
    (msf : List String)
    (hnoquery : ∀ p ∈ paths, queryLessPart p = p)
    (hbuild : ∀ p e m deps, o.buildModule p e = Except.ok (m, deps) →
        o.fsExists (queryLessPart m.id.id) = true)
    (hres : ∀ p e m deps rd, o.buildModule p e = Except.ok (m, deps) →
        rd ∈ deps → o.fsExists (queryLessPart rd.1.resolvedPath) = true)
    (hadd : ∀ p mid, o.buildOne p = Except.ok mid →
        o.fsExists (queryLessPart mid.id) = true)
    (h : update o g0 ms0 paths = Except.ok (r, gf, msf)) :
    (∀ x ∈ r.added, x ∉ r.removed) ∧ (∀ x ∈ r.modified, x ∉ r.removed) := by
  simp only [update] at h
  split at h
  · cases h
  · rename_i st hrep
    split at h
    · cases h
    · rename_i g3 mset2 modifiedIds addPaths hmod
      split at h
      · cases h
      · rename_i addedModuleIds haddok
        cases h
        have hfilterRemove : ∀ x : ModuleId,
            x ∈ (buildByRemove st.graph (groupPaths (filterPaths o st.graph
              (paths.map (fun p => (p, classifyPath o g0 p))))).2.1).2.1 →
            o.fsExists (queryLessPart x.id) = false := by
          intro x hx
          unfold buildByRemove at hx
          rcases buildByRemove_removed_mem _ _ x hx with h1 | ⟨p, hp, hx2⟩
          · cases h1
          · rw [hx2]
            show o.fsExists (queryLessPart p) = false
            rcases (groupPaths_foldl _ ([], [], [])).2.1 p hp with h1 | h1
            · cases h1
            · unfold filterPaths at h1
              rcases filterPaths_mem o st.graph _ [] _ h1 with h2 |
                ⟨pu, hpu, hcase⟩
              · cases h2
              · rw [List.mem_map] at hpu
                rcases hpu with ⟨q, hq, hqe⟩
                subst hqe
                rcases hcase with ⟨hx3, _⟩ | ⟨hx3, _⟩
                · have hq1 : p = q := congrArg Prod.fst hx3
                  have hty : UpdateType.Remove = classifyPath o g0 q :=
                    congrArg Prod.snd hx3
                  have := classify_remove_not_exists o g0 q hty.symm
                  rw [hq1, hnoquery q hq]
                  exact this
                · have hq1 : p = q ++ "?asmodule" := congrArg Prod.fst hx3
                  have hty : UpdateType.Remove = classifyPath o g0 q :=
                    congrArg Prod.snd hx3
                  have := classify_remove_not_exists o g0 q hty.symm
                  rw [hq1, queryLessPart_append_asmodule q (hnoquery q hq)]
                  exact this
        have hmodT : ∀ x ∈ modifiedIds,
            o.fsExists (queryLessPart x.id) = true := by
          intro x hx
          rcases (buildByModify_spec o _ _ _ _ _ _ _ hmod).1 x hx with
            ⟨p, m, deps, hb, hmid⟩
          have := hbuild p _ m deps hb
          rw [hmid] at this
          exact this
        have haddT : ∀ x ∈ (idUnion (idUnion []
            (((groupPaths (filterPaths o st.graph (paths.map
              (fun p => (p, classifyPath o g0 p))))).1
                ++ addPaths).map ModuleId.fromPath)) addedModuleIds),
            o.fsExists (queryLessPart x.id) = true := by
          intro x hx
          rw [idUnion_mem, idUnion_mem] at hx
          rcases hx with (hx | hx) | hx
          · cases hx
          · rw [List.mem_map] at hx
            rcases hx with ⟨p, hp, hpe⟩
            rw [← hpe]
            show o.fsExists (queryLessPart p) = true
            rw [List.mem_append] at hp
            rcases hp with hp | hp
            · rcases (groupPaths_foldl _ ([], [], [])).1 p hp with h1 | h1
              · cases h1
              · unfold filterPaths at h1
                rcases filterPaths_mem o st.graph _ [] _ h1 with h2 |
                  ⟨pu, hpu, hcase⟩
                · cases h2
                · rw [List.mem_map] at hpu
                  rcases hpu with ⟨q, hq, hqe⟩
                  subst hqe
                  rcases hcase with ⟨hx3, _⟩ | ⟨hx3, _⟩
                  · have hq1 : p = q := congrArg Prod.fst hx3
                    have hty : UpdateType.Add = classifyPath o g0 q :=
                      congrArg Prod.snd hx3
                    have := classify_add_exists o g0 q hty.symm
                    rw [hq1, hnoquery q hq]
                    exact this
                  · have hq1 : p = q ++ "?asmodule" := congrArg Prod.fst hx3
                    have hty : UpdateType.Add = classifyPath o g0 q :=
                      congrArg Prod.snd hx3
                    have := classify_add_exists o g0 q hty.symm
                    rw [hq1, queryLessPart_append_asmodule q (hnoquery q hq)]
                    exact this
            · rcases (buildByModify_spec o _ _ _ _ _ _ _ hmod).2 p hp with
                ⟨p2, m, deps, rd, hb, hrd, hpe2⟩
              rw [hpe2]
              exact hres p2 _ m deps rd hb hrd
          · rcases buildByAdd_mem o _ _ haddok x hx with ⟨p, _, hone⟩
            exact hadd p x hone
        constructor
        · intro x hx hxr
          have h1 := haddT x hx
          have h2 := hfilterRemove x hxr
          rw [h1] at h2
          cases h2
        · intro x hx hxr
          have h1 := hmodT x hx
          have h2 := hfilterRemove x hxr
          rw [h1] at h2
          cases h2

theorem C5_added_modified_disjoint_from_removed_witness :
    (∀ x ∈ (⟨[], [], []⟩ : UpdateResult).added,
        x ∉ (⟨[], [], []⟩ : UpdateResult).removed) ∧
      (∀ x ∈ (⟨[], [], []⟩ : UpdateResult).modified,
        x ∉ (⟨[], [], []⟩ : UpdateResult).removed) :=
  C5_added_modified_disjoint_from_removed oracleNone ⟨[], []⟩ [] [] _ _ _
    (fun p hp => absurd hp (List.not_mem_nil p))
    (fun p e m deps hb => by cases hb)
    (fun p e m deps rd hb => by cases hb)
    (fun p mid hb => by cases hb)
    rfl

/-! ## Live-slice query (statement_graph.rs,
StatementGraph::analyze_used_statements_and_idents)

The breadth-first propagation embedded with an explicit fuel parameter;
termination is the statement that some fuel suffices.  Hash-set iteration
is linearized in list order; the per-statement ident sets inside the loop
are Finsets because the Rust HashSet operations used here (insert, extend,
contains) are order-insensitive. -/

/-- Modelled from the spec: UsedIdent (module/mod.rs is not under src/):
an entry of the used_exports input. -/
inductive UsedIdent where
  | SwcIdent (name : String)
  | Default
  | InExportAll (specifier : String)
  | ExportAll
  deriving DecidableEq, Repr

/-- Total statement lookup: StatementGraph::stmt unwraps the id-index
lookup; the default record stands in for the panic on an unknown id. -/
def StatementGraph.stmtOf (g : StatementGraph) (i : Nat) : Statement :=
  g.stmts.getD i ⟨0, [], [], []⟩

/-- StatementGraph::dependencies: the statements this statement's outgoing
edges point to, with the edge ident labels (petgraph neighbor iteration
linearized as edge insertion order). -/
def StatementGraph.dependenciesOf (g : StatementGraph) (i : Nat) :
    List (Statement × List String) :=
  g.edges.filterMap (fun e =>
    if e.1 == i then some (g.stmtOf e.2.1, e.2.2) else none)

/-- Lookup in a defined_idents_map association list. -/
def mapLookup (m : List (String × List String)) (k : String) :
    Option (List String) :=
  (m.find? (fun kv => kv.1 == k)).map (fun kv => kv.2)

/-- used_statements.get_mut(id).extend(s) or insert(id, s). -/
def usedExtend : List (Nat × Finset String) → Nat → Finset String →
    List (Nat × Finset String)
  | [], i, s => [(i, s)]
  | kv :: rest, i, s =>
    if kv.1 == i then (kv.1, kv.2 ∪ s) :: rest
    else kv :: usedExtend rest i s

/-- used_statements.get_mut(id).insert(one) or insert(id, singleton). -/
def usedInsertOne : List (Nat × Finset String) → Nat → String →
    List (Nat × Finset String)
  | [], i, sp => [(i, {sp})]
  | kv :: rest, i, sp =>
    if kv.1 == i then (kv.1, insert sp kv.2) :: rest
    else kv :: usedInsertOne rest i sp

/-- used_statements.insert(id, s): HashMap::insert replaces the value. -/
def usedReplace : List (Nat × Finset String) → Nat → Finset String →
    List (Nat × Finset String)
  | [], i, s => [(i, s)]
  | kv :: rest, i, s =>
    if kv.1 == i then (kv.1, s) :: rest
    else kv :: usedReplace rest i s

/-- The visited key of the loop: stmt_id, a colon, and the sorted
used_defined idents joined with the empty separator. -/
def hashKey (i : Nat) (s : Finset String) : String :=
  toString i ++ ":" ++ String.join (s.sort (fun a b => a ≤ b))

/-- State of the seed pass over one entry's used idents (the for loop over
used_export_idents). -/
structure SeedState where
  usedDefinedIdents : Finset String
  usedDepIdents : Finset String
  skip : Bool
  used : List (Nat × Finset String)

def seedStep (g : StatementGraph) (sid : Nat) (st : SeedState) :
    UsedIdent → SeedState
  | .SwcIdent i =>
    let ud := insert i st.usedDefinedIdents
    let udep :=
      match mapLookup (g.stmtOf sid).definedIdentsMap i with
      | some depIdents => st.usedDepIdents ∪ depIdents.toFinset
      | none => st.usedDepIdents
    { st with usedDefinedIdents := ud, usedDepIdents := udep }
  | .Default =>
    { st with usedDepIdents :=
        st.usedDepIdents ∪ (g.stmtOf sid).usedIdents.toFinset }
  | .InExportAll specifier =>
    { st with used := usedInsertOne st.used sid specifier, skip := true }
  | .ExportAll =>
    { st with used := usedReplace st.used sid {"*"}, skip := true }

def seedPhase (g : StatementGraph) (sid : Nat) (idents : List UsedIdent)
    (used : List (Nat × Finset String)) : SeedState :=
  idents.foldl (seedStep g sid) ⟨∅, ∅, false, used⟩

/-- State of the worklist loop: the queue of
(stmt, used_defined, used_dep) entries, the visited hash strings, and the
accumulated used_statements map. -/
structure AnalyzeState where
  queue : List (Nat × Finset String × Finset String)
  visited : Finset String
  used : List (Nat × Finset String)

/-- Merge into the first queued entry with the same statement id, else
push_back (the stmts.iter_mut().find branch). -/
def mergeOrPush (q : List (Nat × Finset String × Finset String)) (i : Nat)
    (dd di : Finset String) : List (Nat × Finset String × Finset String) :=
  match q with
  | [] => [(i, dd, di)]
  | e :: rest =>
    if e.1 == i then (e.1, e.2.1 ∪ dd, e.2.2 ∪ di) :: rest
    else e :: mergeOrPush rest i dd di

/-- The dep_used_defined_idents of one dependency statement: the used dep
idents that the statement defines (through its map or its defined set). -/
def depUsedDefined (dep : Statement) (usedDep : Finset String) :
    Finset String :=
  usedDep.filter (fun ident =>
    (mapLookup dep.definedIdentsMap ident).isSome = true
      ∨ dep.definedIdents.contains ident = true)

/-- The dep_stmt_idents of one dependency statement: the union of the map
entries of the used dep idents. -/
def depStmtIdents (dep : Statement) (usedDep : Finset String) :
    Finset String :=
  usedDep.biUnion (fun ident =>
    ((mapLookup dep.definedIdentsMap ident).getD []).toFinset)

/-- Expansion along one outgoing edge whose label intersects the used dep
idents. -/
def expandStep (usedDep : Finset String)
    (q : List (Nat × Finset String × Finset String))
    (d : Statement × List String) :
    List (Nat × Finset String × Finset String) :=
  if d.2.any (fun di => decide (di ∈ usedDep)) then
    mergeOrPush q d.1.id (depUsedDefined d.1 usedDep)
      (depStmtIdents d.1 usedDep)
  else q

/-- The while-let worklist loop of analyze_used_statements_and_idents, with
fuel; none means the fuel ran out before the queue emptied. -/
def analyzeLoop (g : StatementGraph) : Nat → AnalyzeState → Option AnalyzeState
  | 0, st =>
    match st.queue with
    | [] => some st
    | _ => none
  | n + 1, st =>
    match st.queue with
    | [] => some st
    | (sid, usedDefined, usedDep) :: rest =>
      let used2 := usedExtend st.used sid usedDefined
      let hash := hashKey sid usedDefined
      if hash ∈ st.visited then analyzeLoop g n ⟨rest, st.visited, used2⟩
      else
        let q2 := (g.dependenciesOf sid).foldl (expandStep usedDep) rest
        analyzeLoop g n ⟨q2, insert hash st.visited, used2⟩

/-- The outer loop over the sorted used_exports entries: seed, then run the
worklist; visited is reset per entry, the used map accumulates. -/
def analyzeGo (g : StatementGraph) (fuel : Nat) :
    List (Nat × List UsedIdent) → List (Nat × Finset String) →
      Option (List (Nat × Finset String))
  | [], used => some used
  | (sid, idents) :: rest, used =>
    let seeded := seedPhase g sid idents used
    if seeded.skip then analyzeGo g fuel rest seeded.used
    else
      match analyzeLoop g fuel
          ⟨[(sid, seeded.usedDefinedIdents, seeded.usedDepIdents)], ∅,
            seeded.used⟩ with
      | none => none
      | some st => analyzeGo g fuel rest st.used

/-- StatementGraph::analyze_used_statements_and_idents (statement_graph.rs
lines 448-565) with fuel for the worklist loops: sort the input by
statement id, then process each entry. -/
def analyzeUsedStatementsAndIdents (g : StatementGraph)
    (usedExports : List (Nat × List UsedIdent)) (fuel : Nat) :
    Option (List (Nat × Finset String)) :=
  analyzeGo g fuel (usedExports.mergeSort (fun a b => a.1 ≤ b.1)) []

/-! ### Termination of the worklist loop (C9)

The visited set can only take keys (stmt, sorted used_defined) whose stmt
id comes from the input or the graph and whose ident set lies inside a
fixed finite universe, so only finitely many keys can ever be marked
visited; a pop either hits the visited set (the queue shrinks) or marks a
fresh key (bounded pushes).  The lexicographic measure
(edges+1) * unvisited-keys + queue-length strictly decreases. -/

/-- Statement ids a queue entry can carry: the input ids, the graph
statement ids, and the default record id. -/
def analyzeIdSet (g : StatementGraph) (input : List (Nat × List UsedIdent)) :
    Finset Nat :=
  (input.map Prod.fst).toFinset ∪ (g.stmts.map Statement.id).toFinset ∪ {0}

/-- The SwcIdent strings of one entry. -/
def seedIdentStrings (idents : List UsedIdent) : List String :=
  idents.filterMap (fun u =>
    match u with
    | UsedIdent.SwcIdent s => some s
    | _ => none)

/-- The finite ident universe of the propagation: the seed strings plus
every map key and defined ident of the graph. -/
def analyzeUniverse (g : StatementGraph)
    (input : List (Nat × List UsedIdent)) : Finset String :=
  (input.flatMap (fun p => seedIdentStrings p.2)).toFinset ∪
    (g.stmts.flatMap (fun s =>
      s.definedIdentsMap.map Prod.fst ++ s.definedIdents)).toFinset

/-- Every visited key the loop can ever produce. -/
def keyHashes (g : StatementGraph) (input : List (Nat × List UsedIdent)) :
    Finset String :=
  ((analyzeIdSet g input) ×ˢ (analyzeUniverse g input).powerset).image
    (fun p => hashKey p.1 p.2)

/-- Queue invariant: entry ids lie in the id set and entry used_defined
sets lie inside the universe. -/
def QInv (g : StatementGraph) (input : List (Nat × List UsedIdent))
    (q : List (Nat × Finset String × Finset String)) : Prop :=
  ∀ e ∈ q, e.1 ∈ analyzeIdSet g input ∧ e.2.1 ⊆ analyzeUniverse g input

/-- The decreasing measure of the worklist loop. -/
def analyzeMeasure (g : StatementGraph)
    (input : List (Nat × List UsedIdent)) (st : AnalyzeState) : Nat :=
  (g.edges.length + 1) * ((keyHashes g input) \ st.visited).card
    + st.queue.length

theorem mergeOrPush_length (i : Nat) (dd di : Finset String) :
    ∀ q : List (Nat × Finset String × Finset String),
      (mergeOrPush q i dd di).length ≤ q.length + 1 := by
  intro q
  induction q with
  | nil => simp [mergeOrPush]
  | cons e rest ih =>
    unfold mergeOrPush
    split
    · simp
    · simpa using Nat.succ_le_succ ih

theorem mergeOrPush_cons_pos (i : Nat) (dd di : Finset String)
    (e0 : Nat × Finset String × Finset String)
    (rest : List (Nat × Finset String × Finset String))
    (h : (e0.1 == i) = true) :
    mergeOrPush (e0 :: rest) i dd di
      = (e0.1, e0.2.1 ∪ dd, e0.2.2 ∪ di) :: rest := by
  simp [mergeOrPush, h]

theorem mergeOrPush_cons_neg (i : Nat) (dd di : Finset String)
    (e0 : Nat × Finset String × Finset String)
    (rest : List (Nat × Finset String × Finset String))
    (h : ¬ (e0.1 == i) = true) :
    mergeOrPush (e0 :: rest) i dd di = e0 :: mergeOrPush rest i dd di := by
  simp [mergeOrPush, h]

theorem mergeOrPush_qinv (g : StatementGraph)
    (input : List (Nat × List UsedIdent)) (i : Nat) (dd di : Finset String)
    (hi : i ∈ analyzeIdSet g input) (hdd : dd ⊆ analyzeUniverse g input) :
    ∀ q : List (Nat × Finset String × Finset String), QInv g input q →
      QInv g input (mergeOrPush q i dd di) := by
  intro q
  induction q with
  | nil =>
    intro _ e he
    rcases List.mem_singleton.mp he with he2
    subst he2
    exact ⟨hi, hdd⟩
  | cons e0 rest ih =>
    intro hq e he
    by_cases hcond : (e0.1 == i) = true
    · rw [mergeOrPush_cons_pos i dd di e0 rest hcond] at he
      rcases List.mem_cons.mp he with he2 | he2
      · subst he2
        exact ⟨(hq e0 (List.mem_cons_self _ _)).1,
          Finset.union_subset (hq e0 (List.mem_cons_self _ _)).2 hdd⟩
      · exact hq e (List.mem_cons_of_mem _ he2)
    · rw [mergeOrPush_cons_neg i dd di e0 rest hcond] at he
      rcases List.mem_cons.mp he with he2 | he2
      · subst he2
        exact hq _ (List.mem_cons_self _ _)
      · exact ih (fun e2 h2 => hq e2 (List.mem_cons_of_mem _ h2)) e he2

theorem expand_foldl_length (u : Finset String)
    (deps : List (Statement × List String)) :
    ∀ q : List (Nat × Finset String × Finset String),
      (deps.foldl (expandStep u) q).length ≤ q.length + deps.length := by
  induction deps with
  | nil => intro q; simp
  | cons d rest ih =>
    intro q
    rw [List.foldl_cons]
    refine (ih (expandStep u q d)).trans ?_
    have hstep : (expandStep u q d).length ≤ q.length + 1 := by
      unfold expandStep
      split
      · exact mergeOrPush_length _ _ _ q
      · exact Nat.le_succ _
    simp only [List.length_cons]
    omega

theorem expand_foldl_qinv (g : StatementGraph)
    (input : List (Nat × List UsedIdent)) (u : Finset String)
    (deps : List (Statement × List String))
    (hdeps : ∀ d ∈ deps, d.1.id ∈ analyzeIdSet g input ∧
      depUsedDefined d.1 u ⊆ analyzeUniverse g input) :
    ∀ q : List (Nat × Finset String × Finset String), QInv g input q →
      QInv g input (deps.foldl (expandStep u) q) := by
  induction deps with
  | nil => intro q hq; exact hq
  | cons d rest ih =>
    intro q hq
    rw [List.foldl_cons]
    refine ih (fun d2 hd2 => hdeps d2 (List.mem_cons_of_mem _ hd2)) _ ?_
    unfold expandStep
    split
    · exact mergeOrPush_qinv g input _ _ _
        (hdeps d (List.mem_cons_self _ _)).1
        (hdeps d (List.mem_cons_self _ _)).2 q hq
    · exact hq

theorem stmtOf_id_mem (g : StatementGraph)
    (input : List (Nat × List UsedIdent)) (j : Nat) :
    (g.stmtOf j).id ∈ analyzeIdSet g input := by
  unfold StatementGraph.stmtOf
  by_cases hj : j < g.stmts.length
  · rw [List.getD_eq_getElem?_getD, List.getElem?_eq_getElem hj]
    simp only [Option.getD_some]
    refine Finset.mem_union_left _ (Finset.mem_union_right _ ?_)
    rw [List.mem_toFinset, List.mem_map]
    exact ⟨g.stmts[j], List.getElem_mem hj, rfl⟩
  · rw [List.getD_eq_getElem?_getD, List.getElem?_eq_none (le_of_not_lt hj)]
    exact Finset.mem_union_right _ (Finset.mem_singleton_self 0)

theorem mapLookup_isSome_mem (m : List (String × List String)) (k : String)
    (h : (mapLookup m k).isSome = true) : k ∈ m.map Prod.fst := by
  unfold mapLookup at h
  rcases hf : m.find? (fun kv => kv.1 == k) with _ | kv
  · rw [hf] at h; cases h
  · have hmem := List.mem_of_find?_eq_some hf
    have hpred := List.find?_some hf
    simp only [beq_iff_eq] at hpred
    rw [List.mem_map]
    exact ⟨kv, hmem, hpred⟩

theorem stmtOf_depUsedDefined_sub (g : StatementGraph)
    (input : List (Nat × List UsedIdent)) (j : Nat) (u : Finset String) :
    depUsedDefined (g.stmtOf j) u ⊆ analyzeUniverse g input := by
  intro x hx
  unfold depUsedDefined at hx
  rw [Finset.mem_filter] at hx
  rcases hx with ⟨_, hpred⟩
  have hxin : x ∈ (g.stmtOf j).definedIdentsMap.map Prod.fst
      ++ (g.stmtOf j).definedIdents := by
    rw [List.mem_append]
    rcases hpred with hp | hp
    · exact Or.inl (mapLookup_isSome_mem _ _ hp)
    · exact Or.inr (List.mem_of_elem_eq_true hp)
  unfold StatementGraph.stmtOf at hxin
  by_cases hj : j < g.stmts.length
  · rw [List.getD_eq_getElem?_getD, List.getElem?_eq_getElem hj] at hxin
    simp only [Option.getD_some] at hxin
    refine Finset.mem_union_right _ ?_
    rw [List.mem_toFinset, List.mem_flatMap]
    exact ⟨g.stmts[j], List.getElem_mem hj, hxin⟩
  · rw [List.getD_eq_getElem?_getD,
      List.getElem?_eq_none (le_of_not_lt hj)] at hxin
    simp at hxin

theorem dependenciesOf_exists (g : StatementGraph) (i : Nat)
    (d : Statement × List String) (hd : d ∈ g.dependenciesOf i) :
    ∃ j, d.1 = g.stmtOf j := by
  unfold StatementGraph.dependenciesOf at hd
  rw [List.mem_filterMap] at hd
  rcases hd with ⟨e, _, hsome⟩
  split at hsome
  · cases hsome
    exact ⟨e.2.1, rfl⟩
  · cases hsome

theorem dependenciesOf_length_le (g : StatementGraph) (i : Nat) :
    (g.dependenciesOf i).length ≤ g.edges.length :=
  List.length_filterMap_le _ _

theorem hashKey_mem_keyHashes (g : StatementGraph)
    (input : List (Nat × List UsedIdent)) (i : Nat) (dd : Finset String)
    (hi : i ∈ analyzeIdSet g input) (hdd : dd ⊆ analyzeUniverse g input) :
    hashKey i dd ∈ keyHashes g input := by
  unfold keyHashes
  rw [Finset.mem_image]
  refine ⟨(i, dd), ?_, rfl⟩
  rw [Finset.mem_product]
  exact ⟨hi, Finset.mem_powerset.mpr hdd⟩

theorem analyzeLoop_isSome (g : StatementGraph)
    (input : List (Nat × List UsedIdent)) :
    ∀ (n : Nat) (st : AnalyzeState), QInv g input st.queue →
      analyzeMeasure g input st ≤ n → (analyzeLoop g n st).isSome := by
  intro n
  induction n with
  | zero =>
    intro st hinv hm
    unfold analyzeMeasure at hm
    rcases hq0 : st.queue with _ | ⟨e, rest⟩
    · simp [analyzeLoop, hq0]
    · rw [hq0] at hm
      simp only [List.length_cons] at hm
      omega
  | succ n ih =>
    intro st hinv hm
    rcases hq0 : st.queue with _ | ⟨⟨sid, usedDefined, usedDep⟩, rest⟩
    · simp [analyzeLoop, hq0]
    · simp only [analyzeLoop, hq0]
      have hminv : (sid, usedDefined, usedDep) ∈ st.queue := by
        rw [hq0]; exact List.mem_cons_self _ _
      rcases hinv _ hminv with ⟨hid, hdd⟩
      by_cases hv : hashKey sid usedDefined ∈ st.visited
      · rw [if_pos hv]
        apply ih
        · intro e he
          exact hinv e (by rw [hq0]; exact List.mem_cons_of_mem _ he)
        · unfold analyzeMeasure at hm ⊢
          rw [hq0] at hm
          simp only [List.length_cons] at hm
          simp only
          omega
      · rw [if_neg hv]
        apply ih
        · apply expand_foldl_qinv
          · intro d hd
            rcases dependenciesOf_exists g sid d hd with ⟨j, hj⟩
            rw [hj]
            exact ⟨stmtOf_id_mem g input j,
              stmtOf_depUsedDefined_sub g input j usedDep⟩
          · intro e he
            exact hinv e (by rw [hq0]; exact List.mem_cons_of_mem _ he)
        · have hhash : hashKey sid usedDefined ∈ keyHashes g input :=
            hashKey_mem_keyHashes g input sid usedDefined hid hdd
          have hmemdiff : hashKey sid usedDefined
              ∈ keyHashes g input \ st.visited :=
            Finset.mem_sdiff.mpr ⟨hhash, hv⟩
          have hcardpos : 0 < (keyHashes g input \ st.visited).card :=
            Finset.card_pos.mpr ⟨_, hmemdiff⟩
          have hcard : (keyHashes g input
              \ insert (hashKey sid usedDefined) st.visited).card
              = (keyHashes g input \ st.visited).card - 1 := by
            rw [Finset.sdiff_insert, Finset.card_erase_of_mem hmemdiff]
          have hq2len : ((g.dependenciesOf sid).foldl
              (expandStep usedDep) rest).length
              ≤ rest.length + g.edges.length :=
            (expand_foldl_length usedDep _ rest).trans
              (Nat.add_le_add_left (dependenciesOf_length_le g sid) _)
          unfold analyzeMeasure at hm ⊢
          rw [hq0] at hm
          simp only [List.length_cons] at hm
          simp only [hcard]
          have hmul : (g.edges.length + 1)
              * (keyHashes g input \ st.visited).card
              = (g.edges.length + 1)
                * ((keyHashes g input \ st.visited).card - 1)
                + (g.edges.length + 1) := by
            have h1 : (keyHashes g input \ st.visited).card - 1 + 1
                = (keyHashes g input \ st.visited).card :=
              Nat.succ_pred_eq_of_pos hcardpos
            calc (g.edges.length + 1) * (keyHashes g input \ st.visited).card
                = (g.edges.length + 1)
                  * ((keyHashes g input \ st.visited).card - 1 + 1) := by
                  rw [h1]
              _ = (g.edges.length + 1)
                  * ((keyHashes g input \ st.visited).card - 1)
                  + (g.edges.length + 1) := by
                  rw [Nat.mul_succ]
          omega

theorem seedPhase_ud_sub (g : StatementGraph) (sid : Nat) :
    ∀ (idents : List UsedIdent) (st0 : SeedState),
      (idents.foldl (seedStep g sid) st0).usedDefinedIdents
        ⊆ st0.usedDefinedIdents ∪ (seedIdentStrings idents).toFinset := by
  intro idents
  induction idents with
  | nil => intro st0; simp
  | cons u rest ih =>
    intro st0
    rw [List.foldl_cons]
    refine (ih (seedStep g sid st0 u)).trans ?_
    have hstep : (seedStep g sid st0 u).usedDefinedIdents
        ⊆ st0.usedDefinedIdents ∪ (seedIdentStrings [u]).toFinset := by
      cases u with
      | SwcIdent s =>
        intro x hx
        simp only [seedStep] at hx
        rw [Finset.mem_insert] at hx
        rcases hx with hx | hx
        · subst hx
          refine Finset.mem_union_right _ ?_
          simp [seedIdentStrings]
        · exact Finset.mem_union_left _ hx
      | Default => exact fun x hx => Finset.mem_union_left _ hx
      | InExportAll sp => exact fun x hx => Finset.mem_union_left _ hx
      | ExportAll => exact fun x hx => Finset.mem_union_left _ hx
    intro x hx
    rw [Finset.mem_union] at hx
    rcases hx with hx | hx
    · have := hstep hx
      rw [Finset.mem_union] at this
      rcases this with h2 | h2
      · exact Finset.mem_union_left _ h2
      · refine Finset.mem_union_right _ ?_
        rw [List.mem_toFinset] at h2 ⊢
        cases u with
        | SwcIdent s =>
          simp only [seedIdentStrings, List.filterMap] at h2 ⊢
          simp at h2
          simp [h2]
        | Default => simp [seedIdentStrings] at h2
        | InExportAll sp => simp [seedIdentStrings] at h2
        | ExportAll => simp [seedIdentStrings] at h2
    · refine Finset.mem_union_right _ ?_
      rw [List.mem_toFinset] at hx ⊢
      cases u with
      | SwcIdent s => simp [seedIdentStrings] at hx ⊢; exact Or.inr hx
      | Default => simpa [seedIdentStrings] using hx
      | InExportAll sp => simpa [seedIdentStrings] using hx
      | ExportAll => simpa [seedIdentStrings] using hx

theorem analyzeGo_isSome (g : StatementGraph)
    (input : List (Nat × List UsedIdent)) (fuel : Nat)
    (hfuel : (g.edges.length + 1) * (keyHashes g input).card + 1 ≤ fuel) :
    ∀ (seeds : List (Nat × List UsedIdent))
      (used : List (Nat × Finset String)),
      (∀ p ∈ seeds, p.1 ∈ analyzeIdSet g input ∧
        (seedIdentStrings p.2).toFinset ⊆ analyzeUniverse g input) →
      (analyzeGo g fuel seeds used).isSome := by
  intro seeds
  induction seeds with
  | nil => intro used _; simp [analyzeGo]
  | cons p rest ih =>
    intro used hp
    rcases p with ⟨sid, idents⟩
    simp only [analyzeGo]
    split
    · exact ih _ (fun q hq => hp q (List.mem_cons_of_mem _ hq))
    · have hseed := hp (sid, idents) (List.mem_cons_self _ _)
      have hud : (seedPhase g sid idents used).usedDefinedIdents
          ⊆ analyzeUniverse g input := by
        refine (seedPhase_ud_sub g sid idents _).trans ?_
        rw [Finset.union_subset_iff]
        exact ⟨by simp, hseed.2⟩
      have hloop := analyzeLoop_isSome g input fuel
        ⟨[(sid, (seedPhase g sid idents used).usedDefinedIdents,
          (seedPhase g sid idents used).usedDepIdents)], ∅,
          (seedPhase g sid idents used).used⟩
        (by
          intro e he
          rcases List.mem_singleton.mp he with he2
          subst he2
          exact ⟨hseed.1, hud⟩)
        (by
          unfold analyzeMeasure
          simp only [Finset.sdiff_empty, List.length_singleton]
          exact hfuel)
      rcases hsome : analyzeLoop g fuel
          ⟨[(sid, (seedPhase g sid idents used).usedDefinedIdents,
            (seedPhase g sid idents used).usedDepIdents)], ∅,
            (seedPhase g sid idents used).used⟩ with _ | st
      · rw [hsome] at hloop
        simp at hloop
      · exact ih st.used (fun q hq => hp q (List.mem_cons_of_mem _ hq))

/-- C9: analyze_used_statements_and_idents terminates for every statement
graph and every used_exports input: a fuel bounded by
(edges + 1) * (number of possible visited keys) + 1 always suffices for
every worklist loop, because each dequeued (stmt, sorted used_defined) key
is expanded at most once and the key space is finite. -/
theorem C9_analyze_terminates (g : StatementGraph)
    (input : List (Nat × List UsedIdent)) :
    ∃ fuel, (analyzeUsedStatementsAndIdents g input fuel).isSome := by
  refine ⟨(g.edges.length + 1) * (keyHashes g input).card + 1, ?_⟩
  unfold analyzeUsedStatementsAndIdents
  apply analyzeGo_isSome g input _ (le_refl _)
  intro p hp
  have hp2 : p ∈ input := by
    rw [List.mem_mergeSort] at hp
    exact hp
  constructor
  · refine Finset.mem_union_left _ (Finset.mem_union_left _ ?_)
    rw [List.mem_toFinset, List.mem_map]
    exact ⟨p, hp2, rfl⟩
  · intro x hx
    refine Finset.mem_union_left _ ?_
    rw [List.mem_toFinset] at hx ⊢
    rw [List.mem_flatMap]
    exact ⟨p, hp2, hx⟩

end Mako
